import Mathlib

/-!
# goTasker: cache-aside consistency of the task-list service

Shallow embedding of `src/app/main.go`.  The five HTTP handlers are pure
functions from the request input, the outcome of every call on the two
adapters (`database/sql` over SQLite, `go-redis`) and the application state
to the HTTP response, the new state and the sequence of adapter calls.

The adapters are not part of the program; they are modelled as follows.

* The store is the content of table `tasks` with the `sqlite_sequence` counter.
  A statement either fails and changes nothing or takes effect as a whole, and
  a transaction that does not commit changes nothing.  Which calls fail is an
  input (`Env`); an insert also fails with `SQLITE_FULL` once the largest rowid
  has been used.
* The cache is the Redis keyspace.  A call that fails leaves it as it was.
  Expiry of a key is a step of the environment.
* `json.Marshal` and `strconv.Atoi` follow the Go standard library (Go 1.22 or
  later for the short escapes of backspace and form feed), on a 64-bit
  platform.
* Requests are handled one after the other.
-/

namespace GoTasker

/-! ## Data model -/

/-- Go `type Task struct`: `ID int64`, `Title string`, `Completed bool`. -/
structure Task where
  ID : Int
  Title : String
  Completed : Bool
deriving DecidableEq

/-- Content of the SQLite file: the rows of table `tasks` and the counter that
`AUTOINCREMENT` keeps for the table in `sqlite_sequence`. -/
structure Store where
  rows : List Task
  seq : Int
deriving DecidableEq

/-- A Redis value together with the expiration it was stored with, in
nanoseconds as Go's `time.Duration`. -/
structure Entry where
  value : String
  ttl : Int
deriving DecidableEq

/-- The keyspace of the Redis server: the live keys and their entries. -/
structure Redis where
  keys : List (String × Entry)
deriving DecidableEq

/-- Go `type App struct`: `Redis` is a pointer and may be nil. -/
structure App where
  DB : Store
  Redis : Option Redis
deriving DecidableEq

/-- Go `time.Second`. -/
def Second : Int := 1000000000

/-- Largest rowid of SQLite, which is also the largest `int64`. -/
def maxRowid : Int := 9223372036854775807

/-- Largest value of Go `int` on a 64-bit platform. -/
def maxInt : Int := 9223372036854775807

/-- Smallest value of Go `int` on a 64-bit platform. -/
def minInt : Int := -9223372036854775808

/-- Two's complement wrap-around of a 64-bit signed integer. -/
def wrapInt (z : Int) : Int := (z + 9223372036854775808) % 18446744073709551616 - 9223372036854775808

/-! ## encoding/json -/

/-- Lower-case hexadecimal digit. -/
def hexDigit (n : Nat) : Char :=
  ("0123456789abcdef".data).getD n '0'

/-- Escape `\u00XX` of a byte below 0x80, or `\uXXXX` in general. -/
def unicodeEscape (n : Nat) : List Char :=
  [Char.ofNat 92, 'u', hexDigit (n / 4096 % 16), hexDigit (n / 256 % 16),
    hexDigit (n / 16 % 16), hexDigit (n % 16)]

/-- Encoding of one character of a JSON string by Go's `encoding/json` with
HTML escaping on, as `json.Marshal` does. -/
def escapeChar (c : Char) : List Char :=
  if c.toNat = 34 ∨ c.toNat = 92 then [Char.ofNat 92, c]
  else if c.toNat = 8 then [Char.ofNat 92, 'b']
  else if c.toNat = 12 then [Char.ofNat 92, 'f']
  else if c.toNat = 10 then [Char.ofNat 92, 'n']
  else if c.toNat = 13 then [Char.ofNat 92, 'r']
  else if c.toNat = 9 then [Char.ofNat 92, 't']
  else if c.toNat < 32 ∨ c = '<' ∨ c = '>' ∨ c = '&' then unicodeEscape c.toNat
  else if c.toNat = 8232 ∨ c.toNat = 8233 then unicodeEscape c.toNat
  else [c]

/-- JSON string literal for a Go string. -/
def jsonString (s : String) : String :=
  String.mk ([Char.ofNat 34] ++ (s.data.map escapeChar).flatten ++ [Char.ofNat 34])

/-- JSON boolean. -/
def jsonBool (b : Bool) : String := if b then "true" else "false"

/-- Encoding of one `Task`: fields in declaration order under their tags. -/
def marshalTask (t : Task) : String :=
  "\x7b" ++ jsonString "id" ++ ":" ++ toString t.ID ++ "," ++
    jsonString "title" ++ ":" ++ jsonString t.Title ++ "," ++
    jsonString "completed" ++ ":" ++ jsonBool t.Completed ++ "\x7d"

/-- JSON array of the encodings of `ts`, in the order of `ts`. -/
def marshalList (ts : List Task) : String :=
  "[" ++ ",".intercalate (ts.map marshalTask) ++ "]"

/-- Go `json.Marshal(tasks)` for `tasks []Task`; `none` is the nil slice, which
encodes as `null`.  No value of this type makes the encoder fail. -/
def jsonMarshal (tasks : Option (List Task)) : Except String String :=
  match tasks with
  | none => .ok "null"
  | some ts => .ok (marshalList ts)

/-- Encoding of `gin.H` with the single key `k` bound to the string `v`. -/
def jsonH (k v : String) : String :=
  "\x7b" ++ jsonString k ++ ":" ++ jsonString v ++ "\x7d"

/-! ## HTTP responses -/

/-- What a handler writes to `gin.Context`: the status code, the headers it sets
with `c.Header`, and the body. -/
structure Response where
  status : Nat
  headers : List (String × String)
  body : String
deriving DecidableEq

/-- Value of the response header `X-Cache-Hit`, when set. -/
def Response.cacheHit (r : Response) : Option String := r.headers.lookup "X-Cache-Hit"

def StatusOK : Nat := 200
def StatusCreated : Nat := 201
def StatusNoContent : Nat := 204
def StatusBadRequest : Nat := 400
def StatusInternalServerError : Nat := 500

/-- Gin `c.JSON(code, gin.H{k: v})` after the headers `hs` were set. -/
def respondH (hs : List (String × String)) (code : Nat) (k v : String) : Response :=
  { status := code, headers := hs, body := jsonH k v }

/-! ## Persistent store: SQLite through database/sql -/

/-- Largest rowid present in the table, `none` for the empty table. -/
def lastRowid : List Task → Option Int
  | [] => none
  | r :: rs =>
    match lastRowid rs with
    | none => some r.ID
    | some m => some (max r.ID m)

/-- Largest rowid the table has ever held as far as SQLite knows: the larger of
the `sqlite_sequence` counter and the largest rowid present. -/
def highWater (s : Store) : Int :=
  match lastRowid s.rows with
  | none => max s.seq 0
  | some m => max s.seq m

/-- Rowid that `INTEGER PRIMARY KEY AUTOINCREMENT` assigns to the next row: one
more than the largest ever used; `none` is `SQLITE_FULL`, raised once the
largest possible rowid has been used. -/
def newRowid (s : Store) : Option Int :=
  if highWater s ≥ maxRowid then none else some (highWater s + 1)

/-- Statement `INSERT INTO tasks(title, completed) VALUES (?, 0)`: the new store
and `LastInsertId`, or `none` when the statement fails. -/
def Store.insert (s : Store) (title : String) : Option (Store × Int) :=
  match newRowid s with
  | none => none
  | some v => some ({ rows := s.rows ++ [{ ID := v, Title := title, Completed := false }], seq := v }, v)

/-- The store after an insert that succeeds. -/
def Store.pushed (s : Store) (title : String) : Store :=
  { rows := s.rows ++ [{ ID := highWater s + 1, Title := title, Completed := false }],
    seq := highWater s + 1 }

/-- Statement `DELETE FROM tasks WHERE id = ?`, `hit` telling which rowids
compare equal to the bound parameter. -/
def Store.deleteWhere (s : Store) (hit : Int → Bool) : Store :=
  { s with rows := s.rows.filter (fun r => !hit r.ID) }

/-- Statement `DELETE FROM tasks`; the `sqlite_sequence` counter stays. -/
def Store.deleteAll (s : Store) : Store :=
  { s with rows := [] }

/-- Insertion of a row into a list that is in descending order of id. -/
def insertDesc (t : Task) : List Task → List Task
  | [] => [t]
  | r :: rs => if r.ID ≤ t.ID then t :: r :: rs else r :: insertDesc t rs

/-- Clause `ORDER BY id DESC`. -/
def orderByIdDesc : List Task → List Task
  | [] => []
  | r :: rs => insertDesc r (orderByIdDesc rs)

/-- Result set of `SELECT id, title, completed FROM tasks ORDER BY id DESC`. -/
def Store.listAll (s : Store) : List Task := orderByIdDesc s.rows

/-- Number of inserts the store accepts before `SQLITE_FULL`. -/
def Store.room (s : Store) : Nat := (maxRowid - highWater s).toNat

/-! ## Cache: Redis through go-redis -/

/-- Value under `key`, `none` when the key is absent (`redis.Nil`). -/
def Redis.get (r : Redis) (key : String) : Option String :=
  (r.keys.lookup key).map Entry.value

/-- Command `DEL key`. -/
def Redis.del (r : Redis) (key : String) : Redis :=
  { keys := r.keys.filter (fun p => p.1 != key) }

/-- Command `SET key value` with expiration `ttl`. -/
def Redis.set (r : Redis) (key value : String) (ttl : Int) : Redis :=
  { keys := (key, { value := value, ttl := ttl }) :: (r.del key).keys }

/-- The one key the service uses. -/
def tasksAll : String := "tasks:all"

/-! ## Adapter calls and their outcomes -/

/-- A call a handler makes on one of the two adapters, in program order. -/
inductive Call where
  | redisGet (key : String)
  | redisSet (key value : String) (ttl : Int)
  | redisDel (key : String)
  | dbQuery (sql : String)
  | rowsClose
  | dbExec (sql : String) (arg : Option String)
  | txBegin
  | txPrepare (sql : String)
  | stmtExec (arg : String)
  | stmtClose
  | txCommit
  | txRollback
deriving DecidableEq

/-- Everything outside the program that decides how one request goes: which
adapter calls return an error, and how SQLite compares a bound text with the
integer column `id`. -/
structure Env where
  /-- `Redis.Get` fails to get an answer. -/
  getErr : Bool
  /-- `Redis.Set` fails; the key is left as it was. -/
  setErr : Bool
  /-- `Redis.Del` fails; the key is left as it was. -/
  delErr : Bool
  /-- `DB.QueryContext` returns an error. -/
  queryErr : Bool
  /-- `rows.Next` stops on an error before the row of this index (from 0). -/
  nextErr : Option Nat
  /-- `rows.Scan` returns an error on the row of this index (from 0). -/
  scanErr : Option Nat
  /-- `DB.ExecContext` returns an error. -/
  execErr : Bool
  /-- `DB.BeginTx` returns an error. -/
  beginErr : Bool
  /-- `tx.PrepareContext` returns an error. -/
  prepareErr : Bool
  /-- `stmt.ExecContext` returns an error on the call of this number (from 1). -/
  stmtErr : Nat → Bool
  /-- `tx.Commit` returns an error. -/
  commitErr : Bool
  /-- Comparison `id = ?` of SQLite for a bound text and a rowid; it is the
  same in every request. -/
  idEq : String → Int → Bool

/-- Result of a handler: the response, the state it leaves and the adapter calls
it made. -/
structure Outcome where
  resp : Response
  app : App
  calls : List Call

def sqlSelect : String := "SELECT id, title, completed FROM tasks ORDER BY id DESC"
def sqlInsert : String := "INSERT INTO tasks(title, completed) VALUES (?, 0)"
def sqlDeleteOne : String := "DELETE FROM tasks WHERE id = ?"
def sqlDeleteAll : String := "DELETE FROM tasks"

/-- Go `append(tasks, t)` on a slice that may be nil. -/
def goAppend (tasks : Option (List Task)) (t : Task) : Option (List Task) :=
  match tasks with
  | none => some [t]
  | some ts => some (ts ++ [t])

/-- Result of the loop over `rows`. -/
inductive ScanResult where
  | aborted
  | collected (tasks : Option (List Task))
deriving DecidableEq

/-- Loop `for rows.Next() { rows.Scan(...); tasks = append(tasks, t) }` over the
result set, `k` being the index of its first remaining row.  `rows.Next` returns
false at the end of the set and also when it fails; `rows.Err` is not read. -/
def scanRows (env : Env) : Nat → List Task → Option (List Task) → ScanResult
  | _, [], tasks => .collected tasks
  | k, r :: rest, tasks =>
    if env.nextErr = some k then .collected tasks
    else if env.scanErr = some k then .aborted
    else scanRows env (k + 1) rest (goAppend tasks r)

/-- Block `if a.Redis != nil { _ = a.Redis.Del(ctx, "tasks:all").Err() }` that
ends each mutating handler. -/
def delTasksAll (env : Env) (redis : Option Redis) : Option Redis × List Call :=
  match redis with
  | none => (none, [])
  | some r => (some (if env.delErr then r else r.del tasksAll), [Call.redisDel tasksAll])

/-! ## Handlers -/

/-- Lines 109 and 110: the value of `a.Redis.Get(ctx, "tasks:all").Result()`
when the client is set and the call returns no error; `none` otherwise (no
client, no answer, or no such key). -/
def getTasksAll (env : Env) (redis : Option Redis) : Option String :=
  match redis with
  | none => none
  | some r => if env.getErr then none else r.get tasksAll

/-- Block `if a.Redis != nil { _ = a.Redis.Set(ctx, "tasks:all", jsonData,
5*time.Second).Err() }` of `handleListTasks`. -/
def setTasksAll (env : Env) (redis : Option Redis) (jsonData : String) : Option Redis × List Call :=
  match redis with
  | none => (none, [])
  | some r =>
    (some (if env.setErr then r else r.set tasksAll jsonData (5 * Second)),
      [Call.redisSet tasksAll jsonData (5 * Second)])

/-- Handler `handleListTasks`. -/
def handleListTasks (env : Env) (a : App) : Outcome :=
  let c0 : List Call := if a.Redis.isSome then [Call.redisGet tasksAll] else []
  match getTasksAll env a.Redis with
  | some data =>
    { resp := { status := StatusOK,
                headers := [("X-Cache-Hit", "true"), ("Content-Type", "application/json")],
                body := data },
      app := a, calls := c0 }
  | none =>
    if env.queryErr then
      { resp := respondH [("X-Cache-Hit", "false")] StatusInternalServerError "error" "db error",
        app := a, calls := c0 ++ [Call.dbQuery sqlSelect] }
    else
      match scanRows env 0 a.DB.listAll none with
      | .aborted =>
        { resp := respondH [("X-Cache-Hit", "false")] StatusInternalServerError "error" "db error",
          app := a, calls := c0 ++ [Call.dbQuery sqlSelect, Call.rowsClose] }
      | .collected found =>
        let tasks : Option (List Task) :=
          match found with
          | none => some []
          | some ts => some ts
        match jsonMarshal tasks with
        | .error _ =>
          { resp := respondH [("X-Cache-Hit", "false")] StatusInternalServerError "error" "json error",
            app := a, calls := c0 ++ [Call.dbQuery sqlSelect, Call.rowsClose] }
        | .ok jsonData =>
          let set := setTasksAll env a.Redis jsonData
          { resp := { status := StatusOK, headers := [("X-Cache-Hit", "false")], body := jsonData },
            app := { a with Redis := set.1 },
            calls := c0 ++ [Call.dbQuery sqlSelect] ++ set.2 ++ [Call.rowsClose] }

/-- Handler `handleCreateTask`.  `input` is what `c.BindJSON` leaves: `none` when
it returns an error, else the decoded `title` (empty when the body has none). -/
def handleCreateTask (env : Env) (input : Option String) (a : App) : Outcome :=
  match input with
  | none =>
    { resp := respondH [] StatusBadRequest "error" "invalid body", app := a, calls := [] }
  | some title =>
    if title = "" then
      { resp := respondH [] StatusBadRequest "error" "invalid body", app := a, calls := [] }
    else
      let exec : Option (Store × Int) := if env.execErr then none else a.DB.insert title
      match exec with
      | none =>
        { resp := respondH [] StatusInternalServerError "error" "db error",
          app := a, calls := [Call.dbExec sqlInsert (some title)] }
      | some (db, id) =>
        let del := delTasksAll env a.Redis
        let task : Task := { ID := id, Title := title, Completed := false }
        { resp := { status := StatusCreated, headers := [], body := marshalTask task },
          app := { DB := db, Redis := del.1 },
          calls := [Call.dbExec sqlInsert (some title)] ++ del.2 }

/-- Handler `handleDeleteTask`; `id` is `c.Param("id")`, a string. -/
def handleDeleteTask (env : Env) (id : String) (a : App) : Outcome :=
  if env.execErr then
    { resp := respondH [] StatusInternalServerError "error" "db error",
      app := a, calls := [Call.dbExec sqlDeleteOne (some id)] }
  else
    let del := delTasksAll env a.Redis
    { resp := { status := StatusNoContent, headers := [], body := "" },
      app := { DB := a.DB.deleteWhere (env.idEq id), Redis := del.1 },
      calls := [Call.dbExec sqlDeleteOne (some id)] ++ del.2 }

/-- Handler `handleClearTasks`. -/
def handleClearTasks (env : Env) (a : App) : Outcome :=
  if env.execErr then
    { resp := respondH [] StatusInternalServerError "error" "db error",
      app := a, calls := [Call.dbExec sqlDeleteAll none] }
  else
    let del := delTasksAll env a.Redis
    { resp := { status := StatusNoContent, headers := [], body := "" },
      app := { DB := a.DB.deleteAll, Redis := del.1 },
      calls := [Call.dbExec sqlDeleteAll none] ++ del.2 }

/-! ### Bulk generate -/

/-- Value of an ASCII decimal digit. -/
def digitVal (c : Char) : Option Nat :=
  if 48 ≤ c.toNat ∧ c.toNat ≤ 57 then some (c.toNat - 48) else none

/-- Value of a run of decimal digits read after `acc`; `none` on any other
character. -/
def parseDigits : List Char → Nat → Option Nat
  | [], acc => some acc
  | c :: cs, acc =>
    match digitVal c with
    | none => none
    | some d => parseDigits cs (acc * 10 + d)

/-- Leading sign of a number: whether it is `-`, and what follows the sign. -/
def splitSign (cs : List Char) : Bool × List Char :=
  match cs with
  | '-' :: ds => (true, ds)
  | '+' :: ds => (false, ds)
  | ds => (false, ds)

/-- Value of the digits `ds` under the sign `neg`, when there is at least one
digit, nothing but digits, and the value is in the range of a 64-bit `int`. -/
def signedValue (neg : Bool) (ds : List Char) : Option Int :=
  if ds = [] then none
  else
    match parseDigits ds 0 with
    | none => none
    | some u =>
      if minInt ≤ (if neg then -(u : Int) else (u : Int)) ∧
          (if neg then -(u : Int) else (u : Int)) ≤ maxInt then
        some (if neg then -(u : Int) else (u : Int))
      else none

/-- Go `strconv.Atoi` on a 64-bit platform: an optional sign and at least one
decimal digit, the value within the range of `int`; `none` is an error. -/
def atoi (s : String) : Option Int :=
  signedValue (splitSign s.data).1 (splitSign s.data).2

/-- Lines 203 to 208 of `handleGenerateTasks`: the number of rows to insert for
the value `q` of `c.Query("count")`, which is empty when the parameter is
absent. -/
def queryCount (q : String) : Int :=
  if q ≠ "" then
    match atoi q with
    | some n => if n > 0 then n else 1000
    | none => 1000
  else 1000

/-- Result of the insert loop of `handleGenerateTasks`. -/
inductive LoopResult where
  | done (tx : Store) (calls : List Call)
  | failed (calls : List Call)
  | starved (calls : List Call)
deriving DecidableEq

/-- Loop `for i := 1; i <= count; i++ { stmt.ExecContext(ctx, "Task i") }` from
the state in which `k - 1` inserts have been made, the counter is `i` and the
transaction sees the store `tx`.  The counter is a Go `int` and wraps; `fuel`
bounds the number of iterations. -/
def insertLoop (env : Env) (count : Int) : Nat → Nat → Int → Store → List Call → LoopResult
  | 0, _, _, _, calls => .starved calls
  | fuel + 1, k, i, tx, calls =>
    if i ≤ count then
      let title := "Task " ++ toString i
      let exec : Option (Store × Int) := if env.stmtErr k then none else tx.insert title
      match exec with
      | none => .failed (calls ++ [Call.stmtExec title])
      | some (tx1, _) => insertLoop env count fuel (k + 1) (wrapInt (i + 1)) tx1 (calls ++ [Call.stmtExec title])
    else .done tx calls

/-- Handler `handleGenerateTasks`; `q` is `c.Query("count")`.  The loop gets one
iteration more than the store has room for rows, which it cannot use up. -/
def handleGenerateTasks (env : Env) (q : String) (a : App) : Outcome :=
  let count := queryCount q
  if env.beginErr then
    { resp := respondH [] StatusInternalServerError "error" "db error",
      app := a, calls := [Call.txBegin] }
  else if env.prepareErr then
    { resp := respondH [] StatusInternalServerError "error" "db error",
      app := a, calls := [Call.txBegin, Call.txPrepare sqlInsert, Call.txRollback] }
  else
    match insertLoop env count (a.DB.room + 1) 1 1 a.DB [] with
    | .starved calls =>
      { resp := respondH [] StatusInternalServerError "error" "db error",
        app := a,
        calls := [Call.txBegin, Call.txPrepare sqlInsert] ++ calls ++ [Call.stmtClose, Call.txRollback] }
    | .failed calls =>
      { resp := respondH [] StatusInternalServerError "error" "db error",
        app := a,
        calls := [Call.txBegin, Call.txPrepare sqlInsert] ++ calls ++ [Call.stmtClose, Call.txRollback] }
    | .done tx calls =>
      if env.commitErr then
        { resp := respondH [] StatusInternalServerError "error" "db error",
          app := a,
          calls := [Call.txBegin, Call.txPrepare sqlInsert] ++ calls ++
            [Call.txCommit, Call.stmtClose, Call.txRollback] }
      else
        let del := delTasksAll env a.Redis
        { resp := respondH [] StatusOK "message" ("generated " ++ toString count ++ " tasks"),
          app := { DB := tx, Redis := del.1 },
          calls := [Call.txBegin, Call.txPrepare sqlInsert] ++ calls ++ [Call.txCommit] ++ del.2 ++
            [Call.stmtClose, Call.txRollback] }

/-- Title that `fmt.Sprintf("Task %d", j)` gives the row of number `j`. -/
def taskTitle (j : Nat) : String := "Task " ++ toString j

/-- The `n` rows that a bulk insert adds when its first row gets rowid `first`
and number `k`: consecutive rowids, titles by number, not completed. -/
def bulkRows (first : Int) (k n : Nat) : List Task :=
  (List.range n).map
    (fun j : Nat => { ID := first + (j : Int), Title := taskTitle (k + j), Completed := false })

/-- Calls on the prepared statement that the insert loop made. -/
def LoopResult.calls (r : LoopResult) : List Call :=
  match r with
  | .done _ calls => calls
  | .failed calls => calls
  | .starved calls => calls

/-- Every store step of a bulk generate goes through: begin, prepare and commit
return no error, the loop bound is below the largest `int` (so that the counter
passes it), none of the inserts 1 to `count` is made to fail, and the store has
room for `count` more rows. -/
def bulkOk (env : Env) (q : String) (a : App) : Prop :=
  env.beginErr = false ∧ env.prepareErr = false ∧ env.commitErr = false ∧
  queryCount q < maxInt ∧
  (∀ k, 1 ≤ k → k ≤ (queryCount q).toNat → env.stmtErr k = false) ∧
  (queryCount q).toNat ≤ a.DB.room

/-! ## Runs of the service -/

/-- A mutating request: `POST /api/tasks/` with the result of `c.BindJSON`,
`DELETE /api/tasks/:id`, `DELETE /api/tasks/`, `POST /api/tasks/generate` with
the value of `c.Query("count")`. -/
inductive Mutation where
  | create (input : Option String)
  | deleteOne (id : String)
  | deleteAll
  | generate (q : String)
deriving DecidableEq

/-- The handler that the router of `main` binds to a mutating request. -/
def Mutation.run (env : Env) (m : Mutation) (a : App) : Outcome :=
  match m with
  | .create input => handleCreateTask env input a
  | .deleteOne id => handleDeleteTask env id a
  | .deleteAll => handleClearTasks env a
  | .generate q => handleGenerateTasks env q a

/-- A step of a sequential run: a request, or the expiry of the cache entry. -/
inductive Step where
  | list
  | mutate (m : Mutation)
  | expire
deriving DecidableEq

/-- State after one step; Redis drops the key when its time to live is over. -/
def Step.run (env : Env) (st : Step) (a : App) : App :=
  match st with
  | .list => (handleListTasks env a).app
  | .mutate m => (m.run env a).app
  | .expire => { a with Redis := a.Redis.map (fun r => r.del tasksAll) }

/-- State after a sequence of steps, each with its own adapter outcomes. -/
def runSteps : List (Env × Step) → App → App
  | [], a => a
  | (env, st) :: rest, a => runSteps rest (st.run env a)

/-- A response that reports success to the caller. -/
def Response.success (r : Response) : Prop := r.status < 400

instance (r : Response) : Decidable r.success := by
  unfold Response.success
  exact inferInstance

/-- The cache entry agrees with the store: the value under `tasks:all`, when
there is one, is the encoding of the rows in descending order of id. -/
def cacheFresh (a : App) : Prop :=
  ∀ r, a.Redis = some r → ∀ v, r.get tasksAll = some v → v = marshalList a.DB.listAll

/-- Adapter outcomes in which no call fails.  For `idEq` the samples take a
stand-in that matches a bound text with a rowid exactly when the text is the
decimal form of the rowid; SQLite itself also matches other spellings of the
same number (`01`, `1.0`).  The samples bind only the texts `abc` and `1`, on
which the two comparisons agree, and every general statement holds for any
comparison. -/
def Env.ok : Env :=
  { getErr := false, setErr := false, delErr := false, queryErr := false,
    nextErr := none, scanErr := none, execErr := false, beginErr := false,
    prepareErr := false, stmtErr := fun _ => false, commitErr := false,
    idEq := fun s n => s = toString n }

/-- The empty store of a fresh database file. -/
def Store.empty : Store := { rows := [], seq := 0 }

/-- The store write of a mutating request fails: the single statement returns
an error (from the adapter, or `SQLITE_FULL`), or for bulk generate begin,
prepare or commit returns an error or some insert `k` with `1 ≤ k ≤ count`
does.  A create that is rejected as a bad request makes no store write. -/
def storeFails (env : Env) (m : Mutation) (a : App) : Prop :=
  match m with
  | .create none => False
  | .create (some title) => title ≠ "" ∧ (env.execErr = true ∨ a.DB.insert title = none)
  | .deleteOne _ => env.execErr = true
  | .deleteAll => env.execErr = true
  | .generate q =>
    env.beginErr = true ∨ env.prepareErr = true ∨ env.commitErr = true ∨
      ∃ k : Nat, 1 ≤ k ∧ (k : Int) ≤ queryCount q ∧ (env.stmtErr k = true ∨ a.DB.room < k)

/-- The call with which a handler makes its store write final: the single
statement, or the commit of the transaction. -/
def Call.isWrite (c : Call) : Bool :=
  match c with
  | .dbExec _ _ => true
  | .txCommit => true
  | _ => false

/-- The calls a handler made before its first delete of `tasks:all`. -/
def beforeDel (calls : List Call) : List Call :=
  calls.takeWhile (fun c => c != Call.redisDel tasksAll)

/-! ## Sample states and outcomes -/

/-- A cache that holds the encoding of the empty list under `tasks:all`. -/
def Redis.emptyList : Redis := { keys := [(tasksAll, { value := "[]", ttl := 5 * Second })] }

/-- A fresh database behind a cache that has just served the empty list. -/
def App.fresh : App := { DB := Store.empty, Redis := some Redis.emptyList }

/-- A database of two rows behind an empty cache. -/
def App.twoRows : App :=
  { DB := { rows := [⟨1, "a", false⟩, ⟨2, "b", true⟩], seq := 2 }, Redis := some ⟨[]⟩ }

/-! ## Facts about the store -/

theorem insertDesc_perm (t : Task) (l : List Task) : (insertDesc t l).Perm (t :: l) := by
  induction l with
  | nil => exact List.Perm.refl _
  | cons r rs ih =>
    unfold insertDesc
    split
    · exact List.Perm.refl _
    · exact ((List.Perm.cons r ih).trans (List.Perm.swap t r rs))

theorem orderByIdDesc_perm (l : List Task) : (orderByIdDesc l).Perm l := by
  induction l with
  | nil => exact List.Perm.refl _
  | cons r rs ih =>
    unfold orderByIdDesc
    exact (insertDesc_perm r _).trans (List.Perm.cons r ih)

theorem insertDesc_sorted (t : Task) (l : List Task)
    (h : l.Pairwise (fun x y => y.ID ≤ x.ID)) :
    (insertDesc t l).Pairwise (fun x y => y.ID ≤ x.ID) := by
  induction l with
  | nil => simp [insertDesc]
  | cons r rs ih =>
    rw [List.pairwise_cons] at h
    unfold insertDesc
    split
    · rename_i hle
      refine List.pairwise_cons.mpr ⟨?_, List.pairwise_cons.mpr h⟩
      intro y hy
      rcases List.mem_cons.mp hy with rfl | hy
      · exact hle
      · exact le_trans (h.1 y hy) hle
    · rename_i hlt
      refine List.pairwise_cons.mpr ⟨?_, ih h.2⟩
      intro y hy
      rcases List.mem_cons.mp ((insertDesc_perm t rs).mem_iff.mp hy) with rfl | hy
      · omega
      · exact h.1 y hy

theorem orderByIdDesc_sorted (l : List Task) :
    (orderByIdDesc l).Pairwise (fun x y => y.ID ≤ x.ID) := by
  induction l with
  | nil => simp [orderByIdDesc]
  | cons r rs ih =>
    unfold orderByIdDesc
    exact insertDesc_sorted r _ ih

theorem lastRowid_append (rows : List Task) (t : Task) :
    lastRowid (rows ++ [t]) =
      some (match lastRowid rows with
        | none => t.ID
        | some m => max m t.ID) := by
  induction rows with
  | nil => simp [lastRowid]
  | cons r rs ih =>
    rw [List.cons_append, lastRowid, ih]
    cases hl : lastRowid rs with
    | none => simp [lastRowid, hl]
    | some m => simp [lastRowid, hl, max_assoc]

theorem lastRowid_ge (rows : List Task) (r : Task) (h : r ∈ rows) :
    ∃ m, lastRowid rows = some m ∧ r.ID ≤ m := by
  induction rows with
  | nil => simp at h
  | cons x xs ih =>
    simp only [lastRowid]
    rcases List.mem_cons.mp h with rfl | hx
    · cases lastRowid xs with
      | none => exact ⟨_, rfl, le_refl _⟩
      | some m => exact ⟨_, rfl, le_max_left _ _⟩
    · obtain ⟨m, hm, hle⟩ := ih hx
      rw [hm]
      exact ⟨_, rfl, le_trans hle (le_max_right _ _)⟩

theorem le_highWater (s : Store) (r : Task) (h : r ∈ s.rows) : r.ID ≤ highWater s := by
  obtain ⟨m, hm, hle⟩ := lastRowid_ge s.rows r h
  simp only [highWater, hm]
  exact le_trans hle (le_max_right _ _)

theorem insert_eq (s : Store) (title : String) (h : highWater s < maxRowid) :
    s.insert title = some (s.pushed title, highWater s + 1) := by
  simp [Store.insert, Store.pushed, newRowid, not_le.mpr h]

theorem insert_eq_none (s : Store) (title : String) (h : maxRowid ≤ highWater s) :
    s.insert title = none := by
  simp [Store.insert, newRowid, h]

theorem highWater_pushed (s : Store) (title : String) :
    highWater (s.pushed title) = highWater s + 1 := by
  simp only [Store.pushed, highWater, lastRowid_append]
  cases lastRowid s.rows with
  | none => simp
  | some m => simp; omega

theorem room_pushed (s : Store) (title : String) (h : highWater s < maxRowid) :
    (s.pushed title).room + 1 = s.room := by
  simp only [Store.room, highWater_pushed]
  omega

theorem room_pos_iff (s : Store) : 0 < s.room ↔ highWater s < maxRowid := by
  simp only [Store.room]
  omega

/-! ## Facts about the cache -/

theorem lookup_filter_ne (key : String) (l : List (String × Entry)) :
    (l.filter (fun p => p.1 != key)).lookup key = none := by
  induction l with
  | nil => rfl
  | cons p ps ih =>
    obtain ⟨a, b⟩ := p
    by_cases hp : a = key
    · have h1 : (a != key) = false := by simp [hp]
      rw [List.filter_cons]
      simp only [h1, Bool.false_eq_true, if_false]
      exact ih
    · have h1 : (a != key) = true := by simp [hp]
      have h2 : (key == a) = false := by
        simp only [beq_eq_false_iff_ne, ne_eq]
        exact fun h => hp h.symm
      rw [List.filter_cons]
      simp only [h1, if_true]
      rw [List.lookup_cons, h2]
      exact ih

theorem get_del (r : Redis) (key : String) : (r.del key).get key = none := by
  simp [Redis.get, Redis.del, lookup_filter_ne]

theorem lookup_set (r : Redis) (key value : String) (ttl : Int) :
    (r.set key value ttl).keys.lookup key = some { value := value, ttl := ttl } := by
  simp [Redis.set, List.lookup]

theorem get_set (r : Redis) (key value : String) (ttl : Int) :
    (r.set key value ttl).get key = some value := by
  simp [Redis.get, lookup_set]

/-! ## Facts about the row loop -/

theorem foldl_goAppend_some (rows ts : List Task) :
    rows.foldl goAppend (some ts) = some (ts ++ rows) := by
  induction rows generalizing ts with
  | nil => simp
  | cons r rs ih => simp [goAppend, ih]

theorem scanRows_ok (env : Env) (hn : env.nextErr = none) (hs : env.scanErr = none)
    (k : Nat) (rows : List Task) (acc : Option (List Task)) :
    scanRows env k rows acc = .collected (rows.foldl goAppend acc) := by
  induction rows generalizing k acc with
  | nil => simp [scanRows]
  | cons r rs ih => simp [scanRows, hn, hs, ih]

theorem scanRows_none_ok (env : Env) (hn : env.nextErr = none) (hs : env.scanErr = none)
    (rows : List Task) :
    scanRows env 0 rows none = .collected (match rows with
      | [] => none
      | r :: rs => some (r :: rs)) := by
  rw [scanRows_ok env hn hs]
  cases rows with
  | nil => simp
  | cons r rs => simp [goAppend, foldl_goAppend_some]

/-- Outcome of `handleListTasks` when the cache yields nothing and the query and
the iteration go through: the freshly encoded list, offered to the cache. -/
theorem list_miss_eq (env : Env) (a : App)
    (hmiss : getTasksAll env a.Redis = none)
    (hq : env.queryErr = false) (hn : env.nextErr = none) (hs : env.scanErr = none) :
    handleListTasks env a =
      { resp := { status := StatusOK, headers := [("X-Cache-Hit", "false")],
                  body := marshalList a.DB.listAll },
        app := { a with Redis := (setTasksAll env a.Redis (marshalList a.DB.listAll)).1 },
        calls := (if a.Redis.isSome then [Call.redisGet tasksAll] else []) ++
          [Call.dbQuery sqlSelect] ++ (setTasksAll env a.Redis (marshalList a.DB.listAll)).2 ++
          [Call.rowsClose] } := by
  unfold handleListTasks
  simp only [hmiss, hq, scanRows_none_ok env hn hs]
  cases a.DB.listAll with
  | nil => simp [jsonMarshal]
  | cons r rs => simp [jsonMarshal]

theorem marshalList_nil : marshalList [] = "[]" := by decide

theorem marshalList_ne_null (ts : List Task) : marshalList ts ≠ "null" := by
  intro h
  have := congrArg String.data h
  simp [marshalList] at this

/-- C2: a list call whose cache get yields no value (no client, adapter failure
or key absent) and whose store query goes through reports 200 with
`X-Cache-Hit: false`; its body is the JSON array of all store rows in descending
order of id, `[]` and never `null` for the empty store, whether or not the cache
set succeeds; when the set succeeds, `tasks:all` holds exactly the returned
bytes with a time to live of 5 seconds. -/
theorem list_miss_fail_open (env : Env) (a : App)
    (hmiss : a.Redis = none ∨ env.getErr = true ∨ ∃ r, a.Redis = some r ∧ r.get tasksAll = none)
    (hq : env.queryErr = false) (hn : env.nextErr = none) (hs : env.scanErr = none) :
    (handleListTasks env a).resp.status = StatusOK ∧
    (handleListTasks env a).resp.cacheHit = some "false" ∧
    (handleListTasks env a).resp.body = marshalList a.DB.listAll ∧
    a.DB.listAll.Perm a.DB.rows ∧
    a.DB.listAll.Pairwise (fun x y => y.ID ≤ x.ID) ∧
    (a.DB.rows = [] → (handleListTasks env a).resp.body = "[]") ∧
    (handleListTasks env a).resp.body ≠ "null" ∧
    (handleListTasks env a).app.DB = a.DB ∧
    (∀ r, a.Redis = some r → env.setErr = false →
      ∃ r1, (handleListTasks env a).app.Redis = some r1 ∧
        r1.keys.lookup tasksAll =
          some { value := (handleListTasks env a).resp.body, ttl := 5 * Second }) := by
  have hmiss1 : getTasksAll env a.Redis = none := by
    rcases hmiss with h | h | ⟨r, h1, h2⟩
    · simp [getTasksAll, h]
    · cases hr : a.Redis <;> simp [getTasksAll, h]
    · simp [getTasksAll, h1, h2]
  rw [list_miss_eq env a hmiss1 hq hn hs]
  refine ⟨rfl, rfl, rfl, orderByIdDesc_perm _, orderByIdDesc_sorted _, ?_, marshalList_ne_null _,
    rfl, ?_⟩
  · intro h
    simp [Store.listAll, h, orderByIdDesc, marshalList_nil]
  · intro r hr hset
    refine ⟨r.set tasksAll (marshalList a.DB.listAll) (5 * Second), ?_, lookup_set _ _ _ _⟩
    simp [setTasksAll, hr, hset]

/-- Witness for C2: a store of two rows behind a cache that does not answer. -/
theorem list_miss_fail_open_witness :
    ({ Env.ok with getErr := true, setErr := true } : Env).getErr = true ∧
    (handleListTasks { Env.ok with getErr := true, setErr := true }
      { DB := { rows := [⟨1, "a", false⟩, ⟨2, "b", true⟩], seq := 2 }, Redis := some ⟨[]⟩ }).resp.body =
      marshalList [⟨2, "b", true⟩, ⟨1, "a", false⟩] :=
  ⟨rfl, (list_miss_fail_open { Env.ok with getErr := true, setErr := true }
    { DB := { rows := [⟨1, "a", false⟩, ⟨2, "b", true⟩], seq := 2 }, Redis := some ⟨[]⟩ }
    (Or.inr (Or.inl rfl)) rfl rfl rfl).2.2.1⟩

/-- Outcome of `handleListTasks` when the cache yields a value. -/
theorem list_hit_eq (env : Env) (a : App) (data : String)
    (hhit : getTasksAll env a.Redis = some data) :
    handleListTasks env a =
      { resp := { status := StatusOK,
                  headers := [("X-Cache-Hit", "true"), ("Content-Type", "application/json")],
                  body := data },
        app := a,
        calls := if a.Redis.isSome then [Call.redisGet tasksAll] else [] } := by
  unfold handleListTasks
  simp only [hhit]

/-- C3: when the cache get for `tasks:all` returns a value, the list handler
returns those bytes verbatim with status 200 and `X-Cache-Hit: true`, makes no
call on the store, and leaves store and cache as they were, whatever the store
holds. -/
theorem list_hit_verbatim (env : Env) (a : App) (r : Redis) (data : String)
    (hr : a.Redis = some r) (hget : env.getErr = false) (hentry : r.get tasksAll = some data) :
    (handleListTasks env a).resp.status = StatusOK ∧
    (handleListTasks env a).resp.body = data ∧
    (handleListTasks env a).resp.cacheHit = some "true" ∧
    (handleListTasks env a).calls = [Call.redisGet tasksAll] ∧
    (handleListTasks env a).app = a := by
  have hhit : getTasksAll env a.Redis = some data := by
    simp [getTasksAll, hr, hget, hentry]
  rw [list_hit_eq env a data hhit]
  refine ⟨rfl, rfl, rfl, ?_, rfl⟩
  simp [hr]

/-- Witness for C3: the entry says `[]` although the store holds a row. -/
theorem list_hit_verbatim_witness :
    Redis.get ⟨[(tasksAll, ⟨"[]", 5 * Second⟩)]⟩ tasksAll = some "[]" ∧
    (handleListTasks Env.ok
      { DB := { rows := [⟨1, "a", false⟩], seq := 1 },
        Redis := some ⟨[(tasksAll, ⟨"[]", 5 * Second⟩)]⟩ }).resp.body = "[]" :=
  ⟨by decide, (list_hit_verbatim Env.ok
    { DB := { rows := [⟨1, "a", false⟩], seq := 1 },
      Redis := some ⟨[(tasksAll, ⟨"[]", 5 * Second⟩)]⟩ }
    ⟨[(tasksAll, ⟨"[]", 5 * Second⟩)]⟩ "[]" rfl rfl (by decide)).2.1⟩

/-! ## Facts about the insert loop -/

theorem wrapInt_succ (k : Int) (h0 : 0 ≤ k) (h1 : k + 1 ≤ maxInt) : wrapInt (k + 1) = k + 1 := by
  unfold wrapInt
  unfold maxInt at h1
  omega

theorem wrapInt_le (z : Int) : wrapInt z ≤ maxInt := by
  unfold wrapInt maxInt
  omega

theorem toString_natCast (j : Nat) : toString ((j : Nat) : Int) = toString j := rfl

theorem bulkRows_zero (first : Int) (k : Nat) : bulkRows first k 0 = [] := rfl

theorem bulkRows_succ (first : Int) (k n : Nat) :
    bulkRows first k (n + 1) =
      { ID := first, Title := taskTitle k, Completed := false } :: bulkRows (first + 1) (k + 1) n := by
  simp only [bulkRows, List.range_succ_eq_map, List.map_cons, List.map_map]
  refine congrArg₂ _ (by simp) ?_
  apply List.map_congr_left
  intro j _
  simp only [Function.comp, Nat.succ_eq_add_one, Nat.cast_add, Nat.cast_one]
  have h1 : first + ((j : Int) + 1) = first + 1 + j := by omega
  have h2 : k + (j + 1) = k + 1 + j := by omega
  rw [h1, h2]


theorem insertLoop_done (env : Env) (count : Int) (hc : count < maxInt) (n : Nat) :
    ∀ (fuel k : Nat) (tx : Store) (calls : List Call),
      (k : Int) + n = count + 1 →
      (∀ j, j < n → env.stmtErr (k + j) = false) →
      n ≤ tx.room → tx.room + 1 ≤ fuel →
      ∃ tx1, insertLoop env count fuel k k tx calls =
          .done tx1 (calls ++ (List.range n).map (fun j => Call.stmtExec (taskTitle (k + j)))) ∧
        tx1.rows = tx.rows ++ bulkRows (highWater tx + 1) k n ∧
        highWater tx1 = highWater tx + n := by
  induction n with
  | zero =>
    intro fuel k tx calls hk _ _ hfuel
    obtain ⟨f, rfl⟩ : ∃ f, fuel = f + 1 := ⟨fuel - 1, by omega⟩
    refine ⟨tx, ?_, by simp [bulkRows_zero], by simp⟩
    have : ¬ ((k : Int) ≤ count) := by omega
    simp [insertLoop, this]
  | succ n ih =>
    intro fuel k tx calls hk herr hroom hfuel
    obtain ⟨f, rfl⟩ : ∃ f, fuel = f + 1 := ⟨fuel - 1, by omega⟩
    have hle : (k : Int) ≤ count := by omega
    have h0 : env.stmtErr k = false := by simpa using herr 0 (Nat.succ_pos n)
    have hhw : highWater tx < maxRowid := (room_pos_iff tx).mp (by omega)
    have hw : wrapInt ((k : Int) + 1) = ((k + 1 : Nat) : Int) := by
      rw [wrapInt_succ _ (by omega) (by omega)]
      simp
    have hroom1 := room_pushed tx (taskTitle k) hhw
    obtain ⟨tx1, h1, h2, h3⟩ := ih f (k + 1) (tx.pushed (taskTitle k))
      (calls ++ [Call.stmtExec (taskTitle k)]) (by push_cast; omega)
      (fun j hj => by
        have := herr (j + 1) (by omega)
        rwa [show k + (j + 1) = k + 1 + j by omega] at this)
      (by omega) (by omega)
    refine ⟨tx1, ?_, ?_, ?_⟩
    · rw [insertLoop]
      simp only [hle, if_true, h0, Bool.false_eq_true, if_false, toString_natCast]
      rw [show ("Task " ++ toString k) = taskTitle k from rfl, insert_eq tx _ hhw]
      simp only [hw, h1]
      simp only [List.range_succ_eq_map, List.map_cons, List.map_map, List.append_assoc,
        List.singleton_append, Nat.add_zero]
      refine congrArg _ (congrArg _ (congrArg _ ?_))
      apply List.map_congr_left
      intro j _
      simp only [Function.comp, Nat.succ_eq_add_one]
      rw [show k + (j + 1) = k + 1 + j by omega]
    · rw [h2, bulkRows_succ, highWater_pushed]
      simp [Store.pushed]
    · rw [h3, highWater_pushed]
      push_cast
      omega


theorem insertLoop_not_starved (env : Env) (count : Int) (fuel : Nat) :
    ∀ (k : Nat) (i : Int) (tx : Store) (calls : List Call), tx.room + 1 ≤ fuel →
      ∀ cs, insertLoop env count fuel k i tx calls ≠ .starved cs := by
  induction fuel with
  | zero => intro k i tx calls h; omega
  | succ f ih =>
    intro k i tx calls hfuel cs
    rw [insertLoop]
    by_cases hle : i ≤ count
    · simp only [hle, if_true]
      by_cases herr : env.stmtErr k = true
      · simp [herr]
      · simp only [herr, Bool.false_eq_true, if_false]
        by_cases hhw : highWater tx < maxRowid
        · rw [insert_eq tx _ hhw]
          have := room_pushed tx ("Task " ++ toString i) hhw
          exact ih _ _ _ _ (by omega) cs
        · rw [insert_eq_none tx _ (not_lt.mp hhw)]
          simp
    · simp [hle]

theorem insertLoop_maxInt_not_done (env : Env) (fuel : Nat) :
    ∀ (k : Nat) (i : Int) (tx : Store) (calls : List Call), i ≤ maxInt →
      ∀ tx1 cs, insertLoop env maxInt fuel k i tx calls ≠ .done tx1 cs := by
  induction fuel with
  | zero => intro k i tx calls _ tx1 cs; simp [insertLoop]
  | succ f ih =>
    intro k i tx calls hi tx1 cs
    rw [insertLoop]
    simp only [hi, if_true]
    by_cases herr : env.stmtErr k = true
    · simp [herr]
    · simp only [herr, Bool.false_eq_true, if_false]
      by_cases hhw : highWater tx < maxRowid
      · rw [insert_eq tx _ hhw]
        exact ih _ _ _ _ (wrapInt_le _) tx1 cs
      · rw [insert_eq_none tx _ (not_lt.mp hhw)]
        simp

theorem insertLoop_failed (env : Env) (count : Int) (hc : count < maxInt) (n : Nat) :
    ∀ (fuel k : Nat) (tx : Store) (calls : List Call),
      (k : Int) + n = count + 1 →
      ((∃ j, j < n ∧ env.stmtErr (k + j) = true) ∨ tx.room < n) →
      tx.room + 1 ≤ fuel →
      ∃ cs, insertLoop env count fuel k k tx calls = .failed cs := by
  induction n with
  | zero =>
    intro fuel k tx calls _ hbad _
    rcases hbad with ⟨j, hj, _⟩ | h <;> omega
  | succ n ih =>
    intro fuel k tx calls hk hbad hfuel
    obtain ⟨f, rfl⟩ : ∃ f, fuel = f + 1 := ⟨fuel - 1, by omega⟩
    have hle : (k : Int) ≤ count := by omega
    rw [insertLoop]
    simp only [hle, if_true]
    by_cases herr : env.stmtErr k = true
    · simp only [herr, if_true]
      exact ⟨_, rfl⟩
    · simp only [herr, Bool.false_eq_true, if_false]
      by_cases hhw : highWater tx < maxRowid
      · rw [insert_eq tx _ hhw]
        have hroom1 := room_pushed tx ("Task " ++ toString (k : Int)) hhw
        have hw : wrapInt ((k : Int) + 1) = ((k + 1 : Nat) : Int) := by
          rw [wrapInt_succ _ (by omega) (by omega)]
          simp
        simp only [hw]
        apply ih f (k + 1) _ _ (by push_cast; omega) _ (by omega)
        rcases hbad with ⟨j, hj, hjerr⟩ | h
        · left
          cases j with
          | zero => exact absurd hjerr herr
          | succ j =>
            exact ⟨j, by omega, by rwa [show k + 1 + j = k + (j + 1) by omega]⟩
        · right
          omega
      · rw [insert_eq_none tx _ (not_lt.mp hhw)]
        exact ⟨_, rfl⟩

theorem insertLoop_calls (env : Env) (count : Int) (fuel : Nat) :
    ∀ (k : Nat) (i : Int) (tx : Store) (calls : List Call),
      ∀ c ∈ (insertLoop env count fuel k i tx calls).calls, c ∈ calls ∨ ∃ t, c = Call.stmtExec t := by
  induction fuel with
  | zero => intro k i tx calls c hc; exact Or.inl (by simpa [insertLoop, LoopResult.calls] using hc)
  | succ f ih =>
    intro k i tx calls c hc
    rw [insertLoop] at hc
    by_cases hle : i ≤ count
    · simp only [hle, if_true] at hc
      by_cases herr : env.stmtErr k = true
      · simp only [herr, if_true, LoopResult.calls, List.mem_append, List.mem_singleton] at hc
        rcases hc with h | h
        · exact Or.inl h
        · exact Or.inr ⟨_, h⟩
      · simp only [herr, Bool.false_eq_true, if_false] at hc
        by_cases hhw : highWater tx < maxRowid
        · rw [insert_eq tx _ hhw] at hc
          rcases ih _ _ _ _ c hc with h | h
          · rcases List.mem_append.mp h with h | h
            · exact Or.inl h
            · exact Or.inr ⟨_, List.mem_singleton.mp h⟩
          · exact Or.inr h
        · rw [insert_eq_none tx _ (not_lt.mp hhw)] at hc
          simp only [LoopResult.calls, List.mem_append, List.mem_singleton] at hc
          rcases hc with h | h
          · exact Or.inl h
          · exact Or.inr ⟨_, h⟩
    · simp only [hle, if_false, LoopResult.calls] at hc
      exact Or.inl hc

/-! ## Facts about bulk generate -/

theorem signedValue_le (neg : Bool) (ds : List Char) (n : Int)
    (h : signedValue neg ds = some n) : n ≤ maxInt := by
  unfold signedValue at h
  by_cases h1 : ds = []
  · simp [h1] at h
  · simp only [h1, if_false] at h
    cases hp : parseDigits ds 0 with
    | none => simp [hp] at h
    | some u =>
      simp only [hp] at h
      generalize (if neg = true then -(u : Int) else (u : Int)) = v at h
      by_cases h2 : minInt ≤ v ∧ v ≤ maxInt
      · simp only [h2, and_self, if_true, Option.some.injEq] at h
        rw [← h]
        exact h2.2
      · simp [h2] at h

theorem atoi_le (s : String) (n : Int) (h : atoi s = some n) : n ≤ maxInt :=
  signedValue_le _ _ n h

theorem queryCount_range (q : String) : 1 ≤ queryCount q ∧ queryCount q ≤ maxInt := by
  unfold queryCount
  split
  · split
    · rename_i n hn
      split
      · exact ⟨by omega, atoi_le q n hn⟩
      · decide
    · decide
  · decide

/-- Outcome of `handleGenerateTasks` when every store step goes through. -/
theorem generate_ok (env : Env) (q : String) (a : App) (h : bulkOk env q a) :
    ∃ tx1, handleGenerateTasks env q a =
        { resp := respondH [] StatusOK "message" ("generated " ++ toString (queryCount q) ++ " tasks"),
          app := { DB := tx1, Redis := (delTasksAll env a.Redis).1 },
          calls := [Call.txBegin, Call.txPrepare sqlInsert] ++
            ([] ++ (List.range (queryCount q).toNat).map (fun j => Call.stmtExec (taskTitle (1 + j)))) ++
            [Call.txCommit] ++ (delTasksAll env a.Redis).2 ++ [Call.stmtClose, Call.txRollback] } ∧
      tx1.rows = a.DB.rows ++ bulkRows (highWater a.DB + 1) 1 (queryCount q).toNat ∧
      highWater tx1 = highWater a.DB + (queryCount q).toNat := by
  obtain ⟨hb, hp, hcm, hlt, herr, hroom⟩ := h
  have hr := queryCount_range q
  obtain ⟨tx1, h1, h2, h3⟩ := insertLoop_done env (queryCount q) hlt (queryCount q).toNat
    (a.DB.room + 1) 1 a.DB [] (by push_cast; omega)
    (fun j hj => herr (1 + j) (by omega) (by omega)) hroom (le_refl _)
  refine ⟨tx1, ?_, h2, h3⟩
  unfold handleGenerateTasks
  simp only [hb, hp, hcm, Bool.false_eq_true, if_false]
  rw [show ((1 : Nat) : Int) = 1 from rfl] at h1
  rw [h1]

/-- Outcome of `handleGenerateTasks` when some store step fails: error 500, the
state as it was, no call on the cache. -/
theorem generate_fail (env : Env) (q : String) (a : App) (h : ¬ bulkOk env q a) :
    (handleGenerateTasks env q a).resp.status = StatusInternalServerError ∧
    (handleGenerateTasks env q a).app = a ∧
    Call.redisDel tasksAll ∉ (handleGenerateTasks env q a).calls := by
  have hr := queryCount_range q
  unfold handleGenerateTasks
  by_cases hb : env.beginErr = true
  · simp [hb, respondH]
  simp only [hb, if_false]
  by_cases hp : env.prepareErr = true
  · simp [hp, respondH]
  simp only [hp, if_false]
  have hcalls := insertLoop_calls env (queryCount q) (a.DB.room + 1) 1 1 a.DB []
  have hnodel : Call.redisDel tasksAll ∉
      (insertLoop env (queryCount q) (a.DB.room + 1) 1 1 a.DB []).calls := by
    intro hmem
    rcases hcalls _ hmem with h1 | ⟨t, h1⟩
    · simp at h1
    · simp at h1
  cases hloop : insertLoop env (queryCount q) (a.DB.room + 1) 1 1 a.DB [] with
  | starved cs => exact absurd hloop (insertLoop_not_starved env _ _ 1 1 a.DB [] (le_refl _) cs)
  | failed cs =>
    rw [hloop] at hnodel
    simp only [LoopResult.calls] at hnodel
    simp [respondH, hnodel]
  | done tx1 cs =>
    rw [hloop] at hnodel
    simp only [LoopResult.calls] at hnodel
    by_cases hcm : env.commitErr = true
    · simp [hcm, respondH, hnodel]
    · exfalso
      apply h
      have hlt : queryCount q < maxInt := by
        rcases lt_or_eq_of_le hr.2 with hlt | heq
        · exact hlt
        · rw [heq] at hloop
          exact absurd hloop (insertLoop_maxInt_not_done env _ 1 1 a.DB [] (by decide) tx1 cs)
      refine ⟨by simpa using hb, by simpa using hp, by simpa using hcm, hlt, ?_⟩
      by_contra hbad
      have hbad2 : (∃ j, j < (queryCount q).toNat ∧ env.stmtErr (1 + j) = true) ∨
          a.DB.room < (queryCount q).toNat := by
        by_contra hno
        apply hbad
        push_neg at hno
        refine ⟨?_, hno.2⟩
        intro k hk1 hk2
        have := hno.1 (k - 1) (by omega)
        rw [show 1 + (k - 1) = k by omega] at this
        simpa using this
      obtain ⟨cs2, hf⟩ := insertLoop_failed env (queryCount q) hlt (queryCount q).toNat
        (a.DB.room + 1) 1 a.DB [] (by push_cast; omega) hbad2 (le_refl _)
      rw [show ((1 : Nat) : Int) = 1 from rfl] at hf
      rw [hf] at hloop
      simp at hloop

/-! ## Facts about the mutating handlers -/

theorem delTasksAll_calls (env : Env) (redis : Option Redis) :
    (delTasksAll env redis).2 = if redis.isSome then [Call.redisDel tasksAll] else [] := by
  cases redis <;> rfl

theorem create_ok (env : Env) (title : String) (a : App) (ht : title ≠ "")
    (he : env.execErr = false) (hhw : highWater a.DB < maxRowid) :
    handleCreateTask env (some title) a =
      { resp := { status := StatusCreated, headers := [],
                  body := marshalTask { ID := highWater a.DB + 1, Title := title, Completed := false } },
        app := { DB := a.DB.pushed title, Redis := (delTasksAll env a.Redis).1 },
        calls := [Call.dbExec sqlInsert (some title)] ++ (delTasksAll env a.Redis).2 } := by
  unfold handleCreateTask
  simp only [ht, if_false, he, Bool.false_eq_true, insert_eq a.DB title hhw]

theorem create_fail (env : Env) (title : String) (a : App) (ht : title ≠ "")
    (h : env.execErr = true ∨ a.DB.insert title = none) :
    handleCreateTask env (some title) a =
      { resp := respondH [] StatusInternalServerError "error" "db error",
        app := a, calls := [Call.dbExec sqlInsert (some title)] } := by
  unfold handleCreateTask
  simp only [ht, if_false]
  rcases h with h | h
  · simp only [h, if_true]
  · by_cases he : env.execErr = true
    · simp only [he, if_true]
    · simp only [he, Bool.false_eq_true, if_false, h]

theorem create_invalid (env : Env) (input : Option String) (a : App)
    (h : input = none ∨ input = some "") :
    handleCreateTask env input a =
      { resp := respondH [] StatusBadRequest "error" "invalid body", app := a, calls := [] } := by
  rcases h with rfl | rfl <;> simp [handleCreateTask]

/-- Every mutating request either reports success and leaves the cache as its
delete block leaves it, or reports an error, leaves the state as it was and
makes no call on the cache. -/
theorem mutation_cases (env : Env) (m : Mutation) (a : App) :
    ((m.run env a).resp.success ∧ (m.run env a).app.Redis = (delTasksAll env a.Redis).1 ∧
        ¬ storeFails env m a) ∨
      (¬ (m.run env a).resp.success ∧ (m.run env a).app = a ∧
        Call.redisDel tasksAll ∉ (m.run env a).calls) := by
  cases m with
  | create input =>
    simp only [Mutation.run]
    cases input with
    | none =>
      right
      rw [create_invalid env none a (Or.inl rfl)]
      simp [Response.success, respondH, StatusBadRequest]
    | some title =>
      by_cases ht : title = ""
      · right
        rw [ht, create_invalid env (some "") a (Or.inr rfl)]
        simp [Response.success, respondH, StatusBadRequest]
      · by_cases hf : env.execErr = true ∨ a.DB.insert title = none
        · right
          rw [create_fail env title a ht hf]
          simp [Response.success, respondH, StatusInternalServerError]
        · left
          push_neg at hf
          have hhw : highWater a.DB < maxRowid := by
            by_contra hc
            exact hf.2 (insert_eq_none a.DB title (not_lt.mp hc))
          rw [create_ok env title a ht (by simpa using hf.1) hhw]
          refine ⟨by simp [Response.success, StatusCreated], rfl, ?_⟩
          simp only [storeFails, not_and, not_or]
          exact fun _ => hf
  | deleteOne id =>
    simp only [Mutation.run, handleDeleteTask, storeFails]
    by_cases he : env.execErr = true
    · right
      simp [he, Response.success, respondH, StatusInternalServerError]
    · left
      simp [he, Response.success, StatusNoContent]
  | deleteAll =>
    simp only [Mutation.run, handleClearTasks, storeFails]
    by_cases he : env.execErr = true
    · right
      simp [he, Response.success, respondH, StatusInternalServerError]
    · left
      simp [he, Response.success, StatusNoContent]
  | generate q =>
    simp only [Mutation.run]
    by_cases hok : bulkOk env q a
    · left
      obtain ⟨tx1, h1, _, _⟩ := generate_ok env q a hok
      rw [h1]
      refine ⟨by simp [Response.success, respondH, StatusOK], rfl, ?_⟩
      obtain ⟨hb, hp, hcm, hlt, herr, hroom⟩ := hok
      simp only [storeFails, hb, hp, hcm, Bool.false_eq_true, false_or, not_exists, not_and, not_or]
      intro k hk1 hk2
      have hk3 : k ≤ (queryCount q).toNat := by omega
      exact ⟨by simp [herr k hk1 hk3], by omega⟩
    · right
      obtain ⟨h1, h2, h3⟩ := generate_fail env q a hok
      refine ⟨?_, h2, h3⟩
      simp [Response.success, h1, StatusInternalServerError]

theorem beforeDel_append (l1 l2 : List Call) (h : Call.redisDel tasksAll ∉ l1) :
    beforeDel (l1 ++ l2) = l1 ++ beforeDel l2 := by
  induction l1 with
  | nil => rfl
  | cons c cs ih =>
    have hc : (c != Call.redisDel tasksAll) = true := by
      simp only [bne_iff_ne, ne_eq]
      intro heq
      exact h (heq ▸ List.mem_cons_self _ _)
    have hcs : Call.redisDel tasksAll ∉ cs := fun hm => h (List.mem_cons_of_mem _ hm)
    have := ih hcs
    simp only [beforeDel] at this ⊢
    simp only [List.cons_append, List.takeWhile_cons, hc, if_true, this]

/-- C4: when the store write of a mutating request fails (for bulk generate:
begin, prepare, commit or any insert `k` with `1 ≤ k ≤ count`), the handler
reports error 500, the store holds exactly what it held before (none of the
attempted rows), the cache is as it was and no delete of `tasks:all` is issued;
and whenever a delete of `tasks:all` is issued, the request succeeds and the
final store write (the statement, or the commit) comes before the delete. -/
theorem store_failure_leaves_state (env : Env) (m : Mutation) (a : App) :
    (storeFails env m a →
      (m.run env a).resp.status = StatusInternalServerError ∧ (m.run env a).app = a ∧
        Call.redisDel tasksAll ∉ (m.run env a).calls) ∧
    (Call.redisDel tasksAll ∈ (m.run env a).calls →
      (m.run env a).resp.success ∧ ¬ storeFails env m a ∧
        ∃ c ∈ beforeDel (m.run env a).calls, c.isWrite = true) := by
  constructor
  · intro hf
    rcases mutation_cases env m a with ⟨_, _, h⟩ | ⟨_, h2, h3⟩
    · exact absurd hf h
    · refine ⟨?_, h2, h3⟩
      cases m with
      | create input =>
        cases input with
        | none => exact absurd hf (by simp [storeFails])
        | some title =>
          simp only [storeFails] at hf
          simp only [Mutation.run]
          rw [create_fail env title a hf.1 hf.2]
          rfl
      | deleteOne id =>
        simp only [storeFails] at hf
        simp [Mutation.run, handleDeleteTask, hf, respondH]
      | deleteAll =>
        simp only [storeFails] at hf
        simp [Mutation.run, handleClearTasks, hf, respondH]
      | generate q =>
        have hnot : ¬ bulkOk env q a := by
          rintro ⟨hb, hp, hcm, hlt, herr, hroom⟩
          simp only [storeFails, hb, hp, hcm, Bool.false_eq_true, false_or] at hf
          obtain ⟨k, hk1, hk2, hk3⟩ := hf
          have hk4 : k ≤ (queryCount q).toNat := by omega
          rcases hk3 with hk3 | hk3
          · simp [herr k hk1 hk4] at hk3
          · omega
        exact (generate_fail env q a hnot).1
  · intro hdel
    rcases mutation_cases env m a with ⟨h1, _, h3⟩ | ⟨_, _, h3⟩
    · refine ⟨h1, h3, ?_⟩
      cases m with
      | create input =>
        cases input with
        | none => simp [Mutation.run, handleCreateTask] at hdel
        | some title =>
          simp only [Mutation.run] at hdel ⊢
          by_cases ht : title = ""
          · simp [handleCreateTask, ht] at hdel
          · by_cases hf : env.execErr = true ∨ a.DB.insert title = none
            · rw [create_fail env title a ht hf] at hdel
              simp at hdel
            · push_neg at hf
              have hhw : highWater a.DB < maxRowid := by
                by_contra hc
                exact hf.2 (insert_eq_none a.DB title (not_lt.mp hc))
              rw [create_ok env title a ht (by simpa using hf.1) hhw]
              refine ⟨Call.dbExec sqlInsert (some title), ?_, rfl⟩
              simp only []
              rw [beforeDel_append _ _ (by simp)]
              simp
      | deleteOne id =>
        simp only [Mutation.run, handleDeleteTask] at hdel ⊢
        by_cases he : env.execErr = true
        · simp [he] at hdel
        · simp only [he, Bool.false_eq_true, if_false]
          refine ⟨Call.dbExec sqlDeleteOne (some id), ?_, rfl⟩
          rw [beforeDel_append _ _ (by simp)]
          simp
      | deleteAll =>
        simp only [Mutation.run, handleClearTasks] at hdel ⊢
        by_cases he : env.execErr = true
        · simp [he] at hdel
        · simp only [he, Bool.false_eq_true, if_false]
          refine ⟨Call.dbExec sqlDeleteAll none, ?_, rfl⟩
          rw [beforeDel_append _ _ (by simp)]
          simp
      | generate q =>
        simp only [Mutation.run] at hdel ⊢
        by_cases hok : bulkOk env q a
        · obtain ⟨tx1, h1, _, _⟩ := generate_ok env q a hok
          rw [h1]
          refine ⟨Call.txCommit, ?_, rfl⟩
          simp only [List.append_assoc]
          rw [beforeDel_append _ _ (by simp), beforeDel_append _ _ (by simp),
            beforeDel_append _ _ (by simp), beforeDel_append [Call.txCommit] _ (by simp)]
          simp
        · exact absurd hdel (generate_fail env q a hok).2.2
    · exact absurd hdel h3

/-- Witness for C4: the second of three inserts fails; the store stays empty and
the cache entry stays. -/
theorem store_failure_leaves_state_witness :
    storeFails { Env.ok with stmtErr := fun k => k == 2 } (.generate "3") App.fresh ∧
    ((Mutation.generate "3").run { Env.ok with stmtErr := fun k => k == 2 } App.fresh).app =
      App.fresh :=
  have h : storeFails { Env.ok with stmtErr := fun k => k == 2 } (.generate "3") App.fresh :=
    Or.inr (Or.inr (Or.inr ⟨2, by decide, by decide, Or.inl rfl⟩))
  ⟨h, ((store_failure_leaves_state { Env.ok with stmtErr := fun k => k == 2 } (.generate "3")
    App.fresh).1 h).2.1⟩

/-- Counterexample to C1 as stated: the create reports 201 although its cache
delete failed, and the list call that follows is a cache hit with the content
from before the create. -/
theorem invalidation_then_read_stale :
    ((Mutation.create (some "buy milk")).run { Env.ok with delErr := true } App.fresh).resp.success ∧
    (handleListTasks Env.ok
      ((Mutation.create (some "buy milk")).run { Env.ok with delErr := true } App.fresh).app).resp.cacheHit
        = some "true" ∧
    (handleListTasks Env.ok
      ((Mutation.create (some "buy milk")).run { Env.ok with delErr := true } App.fresh).app).resp.body
        = "[]" ∧
    marshalList
      ((Mutation.create (some "buy milk")).run { Env.ok with delErr := true } App.fresh).app.DB.listAll
        ≠ "[]" := by
  decide

/-- C1 (amended): after a mutating request that reports success and whose cache
delete takes effect (or with no cache client), the list call that follows
immediately and whose store query goes through is a cache miss whose body is
the encoding of the store content after the mutation, in descending order of
id. -/
theorem invalidation_then_read (env env1 : Env) (m : Mutation) (a : App)
    (hsucc : (m.run env a).resp.success)
    (hdel : a.Redis = none ∨ env.delErr = false)
    (hq : env1.queryErr = false) (hn : env1.nextErr = none) (hs : env1.scanErr = none) :
    (handleListTasks env1 (m.run env a).app).resp.status = StatusOK ∧
    (handleListTasks env1 (m.run env a).app).resp.cacheHit = some "false" ∧
    (handleListTasks env1 (m.run env a).app).resp.body = marshalList (m.run env a).app.DB.listAll ∧
    (m.run env a).app.DB.listAll.Perm (m.run env a).app.DB.rows ∧
    (m.run env a).app.DB.listAll.Pairwise (fun x y => y.ID ≤ x.ID) := by
  have hred : (m.run env a).app.Redis = (delTasksAll env a.Redis).1 := by
    rcases mutation_cases env m a with ⟨_, h, _⟩ | ⟨h, _, _⟩
    · exact h
    · exact absurd hsucc h
  have hmiss : getTasksAll env1 (m.run env a).app.Redis = none := by
    rw [hred]
    rcases hdel with h | h
    · simp [h, delTasksAll, getTasksAll]
    · cases hr : a.Redis with
      | none => simp [delTasksAll, getTasksAll]
      | some r =>
        simp only [delTasksAll, h, Bool.false_eq_true, if_false, getTasksAll, get_del]
        simp
  rw [list_miss_eq env1 _ hmiss hq hn hs]
  exact ⟨rfl, rfl, rfl, orderByIdDesc_perm _, orderByIdDesc_sorted _⟩

/-- Witness for C1 (amended): on the fresh database `create("buy milk")` returns
the task of id 1 and the list call that follows shows it; after `deleteOne(1)`
the list call that follows gives `[]`. -/
theorem invalidation_then_read_witness :
    ((Mutation.create (some "buy milk")).run Env.ok App.fresh).resp.body =
      marshalTask ⟨1, "buy milk", false⟩ ∧
    (handleListTasks Env.ok ((Mutation.create (some "buy milk")).run Env.ok App.fresh).app).resp.body =
      marshalList [⟨1, "buy milk", false⟩] ∧
    (handleListTasks Env.ok
      ((Mutation.deleteOne "1").run Env.ok
        ((Mutation.create (some "buy milk")).run Env.ok App.fresh).app).app).resp.body = "[]" :=
  ⟨by decide,
    (invalidation_then_read Env.ok Env.ok (.create (some "buy milk")) App.fresh (by decide)
      (Or.inr rfl) rfl rfl rfl).2.2.1.trans (by decide),
    (invalidation_then_read Env.ok Env.ok (.deleteOne "1")
      ((Mutation.create (some "buy milk")).run Env.ok App.fresh).app (by decide)
      (Or.inr rfl) rfl rfl rfl).2.2.1.trans (by decide)⟩

/-- C9: create answers 400 exactly when the body cannot be parsed or its title
is empty, and then makes no call on the store or the cache and leaves both as
they were; for a non-empty title and a working store it answers 201, inserts
exactly one row and returns the task with the id the store assigned, the given
title and `completed` false. -/
theorem create_validation (env : Env) (input : Option String) (a : App) :
    ((handleCreateTask env input a).resp.status = StatusBadRequest ↔
      (input = none ∨ input = some "")) ∧
    ((handleCreateTask env input a).resp.status = StatusBadRequest →
      (handleCreateTask env input a).app = a ∧ (handleCreateTask env input a).calls = []) ∧
    (∀ title, input = some title → title ≠ "" → env.execErr = false → highWater a.DB < maxRowid →
      (handleCreateTask env input a).resp.status = StatusCreated ∧
      (a.DB.insert title).map Prod.snd = some (highWater a.DB + 1) ∧
      (handleCreateTask env input a).resp.body =
        marshalTask { ID := highWater a.DB + 1, Title := title, Completed := false } ∧
      (handleCreateTask env input a).app.DB.rows =
        a.DB.rows ++ [{ ID := highWater a.DB + 1, Title := title, Completed := false }] ∧
      (∀ r ∈ a.DB.rows, r.ID < highWater a.DB + 1)) := by
  have hiff : (handleCreateTask env input a).resp.status = StatusBadRequest ↔
      (input = none ∨ input = some "") := by
    constructor
    · intro h
      cases input with
      | none => exact Or.inl rfl
      | some title =>
        by_cases ht : title = ""
        · exact Or.inr (by rw [ht])
        · exfalso
          by_cases hf : env.execErr = true ∨ a.DB.insert title = none
          · rw [create_fail env title a ht hf] at h
            simp [respondH, StatusInternalServerError, StatusBadRequest] at h
          · push_neg at hf
            have hhw : highWater a.DB < maxRowid := by
              by_contra hc
              exact hf.2 (insert_eq_none a.DB title (not_lt.mp hc))
            rw [create_ok env title a ht (by simpa using hf.1) hhw] at h
            simp [StatusCreated, StatusBadRequest] at h
    · intro h
      rw [create_invalid env input a h]
      rfl
  refine ⟨hiff, ?_, ?_⟩
  · intro h
    rw [create_invalid env input a (hiff.mp h)]
    exact ⟨rfl, rfl⟩
  · intro title hin ht he hhw
    subst hin
    rw [create_ok env title a ht he hhw, insert_eq a.DB title hhw]
    refine ⟨rfl, rfl, rfl, rfl, ?_⟩
    intro r hr
    have := le_highWater a.DB r hr
    omega

/-- Witness for C9: `create("buy milk")` on the fresh database returns the task
of id 1. -/
theorem create_validation_witness :
    highWater App.fresh.DB < maxRowid ∧
    (handleCreateTask Env.ok (some "buy milk") App.fresh).resp.body =
      "\x7b\"id\":1,\"title\":\"buy milk\",\"completed\":false\x7d" :=
  ⟨by decide,
    ((create_validation Env.ok (some "buy milk") App.fresh).2.2 "buy milk" rfl (by decide) rfl
      (by decide)).2.2.1.trans (by decide)⟩

theorem delTasksAll_twice (env1 env2 : Env) (redis : Option Redis)
    (h : redis = none ∨ env1.delErr = false ∨ env2.delErr = true) :
    (delTasksAll env2 (delTasksAll env1 redis).1).1 = (delTasksAll env1 redis).1 := by
  cases redis with
  | none => rfl
  | some r =>
    rcases h with h | h | h
    · simp at h
    · by_cases hd : env2.delErr = true
      · simp [delTasksAll, h, hd]
      · simp [delTasksAll, h, hd, Redis.del, List.filter_filter]
    · simp [delTasksAll, h]

/-- Counterexample to C10 as stated, on a store of two rows with an entry under
`tasks:all` and an id that matches no row: the cache delete of the first of two
deleteOne calls fails and that of the second takes effect; both calls answer
204, the first leaves the entry and the second removes it, so two calls do not
leave the state that one call leaves.  And when the delete statement returns an
error, the call answers 500. -/
theorem deleteOne_twice_differs :
    (∀ r ∈ App.twoRows.DB.rows, Env.ok.idEq "abc" r.ID = false) ∧
    (handleDeleteTask { Env.ok with delErr := true } "abc"
      { DB := App.twoRows.DB, Redis := some Redis.emptyList }).resp.status = StatusNoContent ∧
    (handleDeleteTask Env.ok "abc"
      (handleDeleteTask { Env.ok with delErr := true } "abc"
        { DB := App.twoRows.DB, Redis := some Redis.emptyList }).app).resp.status =
        StatusNoContent ∧
    (handleDeleteTask { Env.ok with delErr := true } "abc"
      { DB := App.twoRows.DB, Redis := some Redis.emptyList }).app.Redis =
        some Redis.emptyList ∧
    (handleDeleteTask Env.ok "abc"
      (handleDeleteTask { Env.ok with delErr := true } "abc"
        { DB := App.twoRows.DB, Redis := some Redis.emptyList }).app).app.Redis = some ⟨[]⟩ ∧
    (handleDeleteTask { Env.ok with execErr := true } "abc"
      { DB := App.twoRows.DB, Redis := some Redis.emptyList }).resp.status =
      StatusInternalServerError := by
  decide

/-- C10 (amended): when the delete statement of a deleteOne call runs, then for
an id that matches no row (a text that is not a number matches none) the call
answers 204 with no content, leaves the store exactly as it was and issues the
delete of `tasks:all`; the response, the calls on the cache and the cache it
leaves are those of a delete of any other id, an existing one included; and a
second deleteOne of the same id right after it, with adapter outcomes of its
own, leaves the store that the first call left, and leaves the cache that the
first call left too unless the cache delete of the first call failed and that
of the second takes effect. -/
theorem deleteOne_idempotent (env env2 : Env) (id : String) (a : App)
    (he : env.execErr = false) :
    ((∀ r ∈ a.DB.rows, env.idEq id r.ID = false) →
      (handleDeleteTask env id a).resp =
        { status := StatusNoContent, headers := [], body := "" } ∧
      (handleDeleteTask env id a).app.DB = a.DB ∧
      (handleDeleteTask env id a).app.Redis = (delTasksAll env a.Redis).1 ∧
      (handleDeleteTask env id a).calls =
        [Call.dbExec sqlDeleteOne (some id)] ++ (delTasksAll env a.Redis).2) ∧
    (∀ id2, (handleDeleteTask env id2 a).resp = (handleDeleteTask env id a).resp ∧
      (handleDeleteTask env id2 a).app.Redis = (handleDeleteTask env id a).app.Redis ∧
      (handleDeleteTask env id2 a).calls.tail = (handleDeleteTask env id a).calls.tail) ∧
    (env2.idEq = env.idEq →
      (handleDeleteTask env2 id (handleDeleteTask env id a).app).app.DB =
        (handleDeleteTask env id a).app.DB ∧
      ((a.Redis = none ∨ env.delErr = false ∨ env2.delErr = true) →
        (handleDeleteTask env2 id (handleDeleteTask env id a).app).app =
          (handleDeleteTask env id a).app)) := by
  refine ⟨?_, ?_, ?_⟩
  · intro hmiss
    simp only [handleDeleteTask, he, Bool.false_eq_true, if_false, true_and, and_true]
    simp only [Store.deleteWhere]
    have : a.DB.rows.filter (fun r => !env.idEq id r.ID) = a.DB.rows := by
      apply List.filter_eq_self.mpr
      intro r hr
      simp [hmiss r hr]
    rw [this]
  · intro id2
    simp [handleDeleteTask, he]
  · intro hid
    by_cases he2 : env2.execErr = true
    · simp [handleDeleteTask, he, he2]
    · have he2f : env2.execErr = false := by simpa using he2
      constructor
      · simp [handleDeleteTask, he, he2f, hid, Store.deleteWhere, List.filter_filter]
      · intro hdel
        simp only [handleDeleteTask, he, he2f, Bool.false_eq_true, if_false, hid,
          delTasksAll_twice env env2 a.Redis hdel]
        simp [Store.deleteWhere, List.filter_filter]

/-- Witness for C10 (amended): an id that is not a number, on the database of two
rows; the second call, whose cache delete fails, changes nothing. -/
theorem deleteOne_idempotent_witness :
    (∀ r ∈ App.twoRows.DB.rows, Env.ok.idEq "abc" r.ID = false) ∧
    (handleDeleteTask Env.ok "abc" App.twoRows).app.DB = App.twoRows.DB ∧
    (handleDeleteTask Env.ok "abc" App.twoRows).calls =
      [Call.dbExec sqlDeleteOne (some "abc"), Call.redisDel tasksAll] ∧
    (handleDeleteTask { Env.ok with delErr := true } "abc"
      (handleDeleteTask Env.ok "abc" App.twoRows).app).app =
      (handleDeleteTask Env.ok "abc" App.twoRows).app :=
  have h : ∀ r ∈ App.twoRows.DB.rows, Env.ok.idEq "abc" r.ID = false := by decide
  ⟨h, ((deleteOne_idempotent Env.ok { Env.ok with delErr := true } "abc" App.twoRows rfl).1 h).2.1,
    ((deleteOne_idempotent Env.ok { Env.ok with delErr := true } "abc" App.twoRows rfl).1 h).2.2.2,
    ((deleteOne_idempotent Env.ok { Env.ok with delErr := true } "abc" App.twoRows rfl).2.2 rfl).2
      (Or.inr (Or.inl rfl))⟩

theorem bulkRows_ids_increasing (first : Int) (k n : Nat) :
    ((bulkRows first k n).map Task.ID).Pairwise (fun x y => x < y) := by
  induction n generalizing first k with
  | zero => simp [bulkRows_zero]
  | succ n ih =>
    rw [bulkRows_succ, List.map_cons, List.pairwise_cons]
    refine ⟨?_, ih (first + 1) (k + 1)⟩
    intro y hy
    simp only [bulkRows, List.map_map, List.mem_map, List.mem_range, Function.comp] at hy
    obtain ⟨j, _, rfl⟩ := hy
    simp only
    omega

theorem bulkRows_length (first : Int) (k n : Nat) : (bulkRows first k n).length = n := by
  simp [bulkRows]

theorem bulkRows_getElem (first : Int) (k n j : Nat) (h : j < (bulkRows first k n).length) :
    (bulkRows first k n)[j] =
      { ID := first + (j : Int), Title := "Task " ++ toString (k + j), Completed := false } := by
  simp [bulkRows, taskTitle]

theorem count_redisDel_stmts (n : Nat) :
    ((List.range n).map (fun j => Call.stmtExec (taskTitle (1 + j)))).count (Call.redisDel tasksAll) = 0 := by
  apply List.count_eq_zero.mpr
  simp

/-- C5: when every store step goes through, bulk generate answers 200; and
whenever it answers 200, for its count `n ≥ 1` it has added exactly `n` rows
after the rows that were there, which are unchanged: the `j`-th has title
"Task j", `completed` false and the `j`-th rowid after the largest ever used,
so the ids increase strictly and exceed every earlier id; the calls are begin,
prepare, the `n` inserts in order, commit, one delete of `tasks:all` when a
cache client is set, then the deferred close and rollback; and the message
reports `n`. -/
theorem generate_success (env : Env) (q : String) (a : App) :
    (bulkOk env q a → (handleGenerateTasks env q a).resp.status = StatusOK) ∧
    ((handleGenerateTasks env q a).resp.status = StatusOK →
      1 ≤ queryCount q ∧
      (handleGenerateTasks env q a).app.DB.rows =
        a.DB.rows ++ bulkRows (highWater a.DB + 1) 1 (queryCount q).toNat ∧
      (bulkRows (highWater a.DB + 1) 1 (queryCount q).toNat).length = (queryCount q).toNat ∧
      (∀ j (h : j < (bulkRows (highWater a.DB + 1) 1 (queryCount q).toNat).length),
        (bulkRows (highWater a.DB + 1) 1 (queryCount q).toNat)[j] =
          { ID := highWater a.DB + 1 + (j : Int), Title := "Task " ++ toString (1 + j),
            Completed := false }) ∧
      ((bulkRows (highWater a.DB + 1) 1 (queryCount q).toNat).map Task.ID).Pairwise
        (fun x y => x < y) ∧
      (∀ r ∈ a.DB.rows, ∀ t ∈ bulkRows (highWater a.DB + 1) 1 (queryCount q).toNat, r.ID < t.ID) ∧
      (handleGenerateTasks env q a).calls =
        [Call.txBegin, Call.txPrepare sqlInsert] ++
          (List.range (queryCount q).toNat).map (fun j => Call.stmtExec (taskTitle (1 + j))) ++
          [Call.txCommit] ++ (if a.Redis.isSome then [Call.redisDel tasksAll] else []) ++
          [Call.stmtClose, Call.txRollback] ∧
      (a.Redis.isSome →
        (handleGenerateTasks env q a).calls.count (Call.redisDel tasksAll) = 1 ∧
        Call.txCommit ∈ beforeDel (handleGenerateTasks env q a).calls) ∧
      (handleGenerateTasks env q a).app.Redis = (delTasksAll env a.Redis).1 ∧
      (handleGenerateTasks env q a).resp.body =
        jsonH "message" ("generated " ++ toString (queryCount q) ++ " tasks")) := by
  constructor
  · intro hok
    obtain ⟨tx1, h1, _, _⟩ := generate_ok env q a hok
    rw [h1]
    rfl
  · intro hst
    have hok : bulkOk env q a := by
      by_contra hno
      have := (generate_fail env q a hno).1
      rw [this] at hst
      exact absurd hst (by decide)
    obtain ⟨tx1, h1, h2, _⟩ := generate_ok env q a hok
    have hcalls : (handleGenerateTasks env q a).calls =
        [Call.txBegin, Call.txPrepare sqlInsert] ++
          (List.range (queryCount q).toNat).map (fun j => Call.stmtExec (taskTitle (1 + j))) ++
          [Call.txCommit] ++ (if a.Redis.isSome then [Call.redisDel tasksAll] else []) ++
          [Call.stmtClose, Call.txRollback] := by
      rw [h1, delTasksAll_calls]
      simp
    refine ⟨(queryCount_range q).1, ?_, bulkRows_length _ _ _, ?_, bulkRows_ids_increasing _ _ _,
      ?_, hcalls, ?_, ?_, ?_⟩
    · rw [h1]
      exact h2
    · intro j h
      exact bulkRows_getElem _ _ _ _ h
    · intro r hr t ht
      have hle := le_highWater a.DB r hr
      simp only [bulkRows, List.mem_map, List.mem_range] at ht
      obtain ⟨j, _, rfl⟩ := ht
      simp only
      omega
    · intro hsome
      rw [hcalls]
      simp only [hsome, if_true]
      constructor
      · simp only [List.count_append, count_redisDel_stmts]
        decide
      · simp only [List.append_assoc]
        rw [beforeDel_append _ _ (by simp), beforeDel_append _ _ (by simp),
          beforeDel_append [Call.txCommit] _ (by simp)]
        simp
    · rw [h1]
    · rw [h1]
      rfl

/-- Witness for C5: `generate(3)` on the fresh database gives the rows "Task 1",
"Task 2", "Task 3" with ids 1 to 3 and one delete of `tasks:all`, after the
commit. -/
theorem generate_success_witness :
    bulkOk Env.ok "3" App.fresh ∧
    (handleGenerateTasks Env.ok "3" App.fresh).resp.status = StatusOK ∧
    (handleGenerateTasks Env.ok "3" App.fresh).app.DB.rows =
      [⟨1, "Task 1", false⟩, ⟨2, "Task 2", false⟩, ⟨3, "Task 3", false⟩] ∧
    (handleGenerateTasks Env.ok "3" App.fresh).calls.count (Call.redisDel tasksAll) = 1 :=
  have hok : bulkOk Env.ok "3" App.fresh :=
    ⟨rfl, rfl, rfl, by decide, fun _ _ _ => rfl, by decide⟩
  have h : (handleGenerateTasks Env.ok "3" App.fresh).resp.status = StatusOK :=
    (generate_success Env.ok "3" App.fresh).1 hok
  ⟨hok, h, ((generate_success Env.ok "3" App.fresh).2 h).2.1.trans (by decide),
    (((generate_success Env.ok "3" App.fresh).2 h).2.2.2.2.2.2.2.1 rfl).1⟩

/-! ## Facts about the count parameter -/

theorem digitVal_digitChar (d : Nat) (h : d < 10) : digitVal (Nat.digitChar d) = some d := by
  interval_cases d <;> decide

theorem parseDigits_toDigitsCore (fuel : Nat) :
    ∀ (n : Nat) (ds : List Char), n < fuel →
      parseDigits (Nat.toDigitsCore 10 fuel n ds) 0 = parseDigits ds n := by
  induction fuel with
  | zero => intro n ds h; omega
  | succ f ih =>
    intro n ds h
    rw [Nat.toDigitsCore]
    by_cases h0 : n / 10 = 0
    · simp only [h0, if_true, parseDigits, digitVal_digitChar (n % 10) (Nat.mod_lt _ (by decide))]
      congr 1
      omega
    · simp only [h0, if_false]
      rw [ih (n / 10) _ (by omega)]
      simp only [parseDigits, digitVal_digitChar (n % 10) (Nat.mod_lt _ (by decide))]
      congr 1
      omega

theorem parseDigits_toString (n : Nat) : parseDigits (toString n).data 0 = some n := by
  show parseDigits (Nat.toDigitsCore 10 (n + 1) n []) 0 = some n
  rw [parseDigits_toDigitsCore (n + 1) n [] (by omega)]
  rfl

theorem splitSign_of_digits (cs : List Char) (u : Nat) (h : parseDigits cs 0 = some u) :
    splitSign cs = (false, cs) := by
  cases cs with
  | nil => rfl
  | cons c rest =>
    unfold splitSign
    split
    · rename_i ds heq
      injection heq with hc _
      rw [hc] at h
      simp [parseDigits, digitVal] at h
    · rename_i ds heq
      injection heq with hc _
      rw [hc] at h
      simp [parseDigits, digitVal] at h
    · rfl

theorem toString_data_ne_nil (n : Nat) : (toString n).data ≠ [] := by
  intro h
  have := parseDigits_toString n
  rw [h] at this
  have h2 := this
  simp only [parseDigits, Option.some.injEq] at h2
  subst h2
  revert h
  decide

/-- Go `strconv.Atoi` reads the decimal form of a natural number as that number
when it is in the range of `int`, and fails beyond. -/
theorem atoi_toString (n : Nat) :
    atoi (toString n) = if (n : Int) ≤ maxInt then some (n : Int) else none := by
  unfold atoi
  rw [splitSign_of_digits _ n (parseDigits_toString n)]
  unfold signedValue
  simp only [toString_data_ne_nil n, if_false, parseDigits_toString n, Bool.false_eq_true]
  have : minInt ≤ (n : Int) := by unfold minInt; omega
  simp [this]

/-- Go `strconv.Atoi` reads `-` followed by the decimal form of a natural
number as its negation when it is in the range of `int`, and fails beyond. -/
theorem atoi_neg_toString (n : Nat) :
    atoi ("-" ++ toString n) = if minInt ≤ -(n : Int) then some (-(n : Int)) else none := by
  unfold atoi
  have hd : ("-" ++ toString n).data = '-' :: (toString n).data := by
    simp [String.data_append]
  rw [hd]
  simp only [splitSign]
  unfold signedValue
  simp only [toString_data_ne_nil n, if_false, parseDigits_toString n, if_true]
  have : -(n : Int) ≤ maxInt := by unfold maxInt; omega
  simp [this]

theorem toString_ne_empty (n : Nat) : toString n ≠ "" := by
  intro h
  exact toString_data_ne_nil n (by rw [h])

theorem queryCount_of_count_eq (env : Env) (q q2 : String) (a : App)
    (h : queryCount q = queryCount q2) :
    handleGenerateTasks env q a = handleGenerateTasks env q2 a := by
  unfold handleGenerateTasks
  rw [h]

/-- C6: the loop bound of bulk generate is `n` when `strconv.Atoi` reads the
count parameter as an integer `n > 0`, and 1000 when the parameter is absent or
empty, is not read as an integer, or is read as zero or a negative number; in
the fallback the handler does exactly what it does for `count=1000`, and it
never answers 400; on success the number of rows added is the bound.  For the
decimal form of a natural number `n`: the bound is `n` when `0 < n` fits `int`,
and 1000 when `n` is beyond `int`, and 1000 for `-n`. -/
theorem default_count_policy (q : String) :
    (∀ n : Int, atoi q = some n → 0 < n → queryCount q = n) ∧
    ((q = "" ∨ atoi q = none ∨ ∃ n, atoi q = some n ∧ n ≤ 0) → queryCount q = 1000) ∧
    (queryCount q = 1000 →
      ∀ env a, handleGenerateTasks env q a = handleGenerateTasks env "1000" a) ∧
    (∀ env a, (handleGenerateTasks env q a).resp.status ≠ StatusBadRequest) ∧
    (∀ env a, bulkOk env q a →
      (handleGenerateTasks env q a).app.DB.rows.length =
        a.DB.rows.length + (queryCount q).toNat) ∧
    (∀ n : Nat, 0 < n → (n : Int) ≤ maxInt → queryCount (toString n) = n) ∧
    (∀ n : Nat, maxInt < (n : Int) → queryCount (toString n) = 1000) ∧
    (∀ n : Nat, queryCount ("-" ++ toString n) = 1000) ∧
    queryCount "0" = 1000 ∧ queryCount "abc" = 1000 ∧ queryCount "12x" = 1000 ∧
    queryCount " 5" = 1000 ∧ queryCount "5.0" = 1000 := by
  refine ⟨?_, ?_, ?_, ?_, ?_, ?_, ?_, ?_, by decide, by decide, by decide, by decide, by decide⟩
  · intro n hn hpos
    unfold queryCount
    by_cases hq : q = ""
    · subst hq
      have : atoi "" = none := by decide
      rw [this] at hn
      exact absurd hn (by simp)
    · simp [hq, hn, hpos]
  · intro h
    unfold queryCount
    rcases h with h | h | ⟨n, hn, hle⟩
    · simp [h]
    · simp [h]
    · simp only [hn]
      have : ¬ n > 0 := by omega
      simp [this]
  · intro h env a
    exact queryCount_of_count_eq env q "1000" a (h.trans (by decide))
  · intro env a
    by_cases hok : bulkOk env q a
    · obtain ⟨tx1, h1, _, _⟩ := generate_ok env q a hok
      rw [h1]
      simp [respondH, StatusOK, StatusBadRequest]
    · rw [(generate_fail env q a hok).1]
      decide
  · intro env a hok
    obtain ⟨tx1, h1, h2, _⟩ := generate_ok env q a hok
    rw [h1]
    simp only
    rw [h2, List.length_append, bulkRows_length]
  · intro n hpos hle
    unfold queryCount
    simp only [ne_eq, toString_ne_empty n, not_false_eq_true, if_true, atoi_toString, hle]
    have : (n : Int) > 0 := by omega
    simp [this]
  · intro n hgt
    unfold queryCount
    have : ¬ (n : Int) ≤ maxInt := by omega
    simp [atoi_toString, this]
  · intro n
    unfold queryCount
    rw [atoi_neg_toString]
    by_cases hr : minInt ≤ -(n : Int)
    · have : ¬ (-(n : Int) > 0) := by omega
      simp [hr, this]
    · simp [hr]


/-- Witness for C6: `count=7` gives 7, `count=-5` gives 1000. -/
theorem default_count_policy_witness :
    atoi "7" = some 7 ∧ queryCount "7" = 7 ∧ queryCount "-5" = 1000 :=
  ⟨by decide, (default_count_policy "7").1 7 (by decide) (by decide),
    (default_count_policy "-5").2.1 (Or.inr (Or.inr ⟨-5, by decide, by decide⟩))⟩

/-! ## The row iterator and the cache entry -/

theorem scanRows_abort (env : Env) (hn : env.nextErr = none) (j : Nat) (hs : env.scanErr = some j)
    (rows : List Task) :
    ∀ (k : Nat) (acc : Option (List Task)), k ≤ j → j < k + rows.length →
      scanRows env k rows acc = .aborted := by
  induction rows with
  | nil => intro k acc h1 h2; simp at h2; omega
  | cons r rs ih =>
    intro k acc h1 h2
    rw [scanRows]
    simp only [hn, hs, Option.some.injEq]
    by_cases hk : j = k
    · simp [hk]
    · simp only [hk, if_false]
      have : (none : Option Nat) ≠ some k := by simp
      simp only [this, if_false]
      apply ih
      · omega
      · simp only [List.length_cons] at h2
        omega

theorem scanRows_cases (env : Env) (hn : env.nextErr = none) (rows : List Task) :
    ∀ (k : Nat) (acc : Option (List Task)),
      scanRows env k rows acc = .aborted ∨
        scanRows env k rows acc = .collected (rows.foldl goAppend acc) := by
  induction rows with
  | nil => intro k acc; right; simp [scanRows]
  | cons r rs ih =>
    intro k acc
    rw [scanRows]
    simp only [hn]
    have : (none : Option Nat) ≠ some k := by simp
    simp only [this, if_false]
    by_cases hs : env.scanErr = some k
    · left
      simp [hs]
    · simp only [hs, if_false, List.foldl_cons]
      exact ih (k + 1) (goAppend acc r)

/-- The parts of the read path that do report a store error: when the cache
yields nothing and the query is refused, or a row cannot be scanned, the list
handler answers 500, returns no list, and leaves store and cache as they
were, without a call to set the cache entry. -/
theorem list_store_error_reported (env : Env) (a : App)
    (hmiss : getTasksAll env a.Redis = none) (hn : env.nextErr = none)
    (h : env.queryErr = true ∨ ∃ j, env.scanErr = some j ∧ j < a.DB.rows.length) :
    (handleListTasks env a).resp = respondH [("X-Cache-Hit", "false")]
      StatusInternalServerError "error" "db error" ∧
    (handleListTasks env a).app = a ∧
    (∀ v ttl, Call.redisSet tasksAll v ttl ∉ (handleListTasks env a).calls) := by
  unfold handleListTasks
  simp only [hmiss]
  by_cases hq : env.queryErr = true
  · simp only [hq, if_true, true_and]
    intro v ttl
    cases a.Redis <;> simp
  · rcases h with h | ⟨j, hj, hlen⟩
    · exact absurd h hq
    · have hlen2 : j < 0 + a.DB.listAll.length := by
        rw [Store.listAll, (orderByIdDesc_perm a.DB.rows).length_eq]
        omega
      have hq1 : env.queryErr = false := by simpa using hq
      simp only [hq1, Bool.false_eq_true, if_false,
        scanRows_abort env hn j hj a.DB.listAll 0 none (Nat.zero_le _) hlen2, true_and]
      intro v ttl
      cases a.Redis <;> simp

/-- C8 fails on the code: the iterator stops on an error before the second of
two rows; the list handler answers 200 with the first row alone, although the
store holds two, and stores that truncated list under `tasks:all`. -/
theorem list_iterator_error_unreported :
    (handleListTasks { Env.ok with nextErr := some 1 } App.twoRows).resp.status = StatusOK ∧
    (handleListTasks { Env.ok with nextErr := some 1 } App.twoRows).resp.body =
      marshalList [⟨2, "b", true⟩] ∧
    App.twoRows.DB.listAll = [⟨2, "b", true⟩, ⟨1, "a", false⟩] ∧
    (handleListTasks { Env.ok with nextErr := some 1 } App.twoRows).app.Redis =
      some ⟨[(tasksAll, ⟨marshalList [⟨2, "b", true⟩], 5 * Second⟩)]⟩ := by
  decide

/-- One step keeps the cache entry in agreement with the store when the cache
delete takes effect and the row iterator does not fail; the other store calls
may fail. -/
theorem cacheFresh_step (env : Env) (st : Step) (a : App)
    (hdel : env.delErr = false) (hn : env.nextErr = none) (h : cacheFresh a) :
    cacheFresh (st.run env a) := by
  cases st with
  | list =>
    simp only [Step.run]
    cases hget : getTasksAll env a.Redis with
    | some data =>
      rw [list_hit_eq env a data hget]
      exact h
    | none =>
      unfold handleListTasks
      simp only [hget]
      by_cases hq : env.queryErr = true
      · simp only [hq, if_true]
        exact h
      · have hq1 : env.queryErr = false := by simpa using hq
        simp only [hq1, Bool.false_eq_true, if_false]
        rcases scanRows_cases env hn a.DB.listAll 0 none with hs | hs
        · rw [hs]
          exact h
        · rw [hs]
          have hfound : (match List.foldl goAppend none a.DB.listAll with
              | none => some []
              | some ts => some ts) = some a.DB.listAll := by
            cases a.DB.listAll with
            | nil => rfl
            | cons r rs => simp [goAppend, foldl_goAppend_some]
          simp only [hfound, jsonMarshal]
          intro r hr v hv
          cases hred : a.Redis with
          | none => simp [setTasksAll, hred] at hr
          | some r0 =>
            simp only [setTasksAll, hred, Option.some.injEq] at hr
            by_cases hset : env.setErr = true
            · simp only [hset, if_true] at hr
              subst hr
              exact h r0 hred v hv
            · simp only [hset, Bool.false_eq_true, if_false] at hr
              subst hr
              rw [get_set] at hv
              exact (Option.some.inj hv).symm
  | mutate m =>
    simp only [Step.run]
    rcases mutation_cases env m a with ⟨_, hred, _⟩ | ⟨_, happ, _⟩
    · intro r hr v hv
      rw [hred] at hr
      cases hr0 : a.Redis with
      | none => simp [delTasksAll, hr0] at hr
      | some r0 =>
        simp only [delTasksAll, hr0, hdel, Bool.false_eq_true, if_false, Option.some.injEq] at hr
        subst hr
        rw [get_del] at hv
        exact absurd hv (by simp)
    · rw [happ]
      exact h
  | expire =>
    intro r hr v hv
    simp only [Step.run] at hr
    cases hr0 : a.Redis with
    | none => simp [hr0] at hr
    | some r0 =>
      simp only [hr0, Option.map_some', Option.some.injEq] at hr
      subst hr
      rw [get_del] at hv
      exact absurd hv (by simp)

/-- The cache entry agrees with the store in every state of a sequential run
that starts without an entry, as long as every cache delete takes effect and
the row iterator never fails. -/
theorem cacheFresh_run (steps : List (Env × Step)) :
    ∀ a : App, (∀ p ∈ steps, p.1.delErr = false ∧ p.1.nextErr = none) → cacheFresh a →
      cacheFresh (runSteps steps a) := by
  induction steps with
  | nil => intro a _ h; exact h
  | cons p rest ih =>
    intro a hall h
    obtain ⟨env, st⟩ := p
    simp only [runSteps]
    apply ih
    · intro p hp
      exact hall p (List.mem_cons_of_mem _ hp)
    · exact cacheFresh_step env st a (hall (env, st) (List.mem_cons_self _ _)).1
        (hall (env, st) (List.mem_cons_self _ _)).2 h

/-- C7 fails on the code: from the database of two rows and no cache entry, one
list call during which the iterator stops on an error leaves under `tasks:all`
a list that is not the encoding of the store content, and the list call that
follows, with no failure at all, returns it as a hit. -/
theorem cache_entry_truncated_after_iterator_error :
    getTasksAll Env.ok App.twoRows.Redis = none ∧
    ¬ cacheFresh (runSteps [({ Env.ok with nextErr := some 1 }, Step.list)] App.twoRows) ∧
    (handleListTasks Env.ok
      (runSteps [({ Env.ok with nextErr := some 1 }, Step.list)] App.twoRows)).resp.cacheHit =
        some "true" ∧
    (handleListTasks Env.ok
      (runSteps [({ Env.ok with nextErr := some 1 }, Step.list)] App.twoRows)).resp.body ≠
      marshalList (runSteps [({ Env.ok with nextErr := some 1 }, Step.list)] App.twoRows).DB.listAll := by
  refine ⟨by decide, ?_, by decide, by decide⟩
  intro h
  have h1 := h ⟨[(tasksAll, ⟨marshalList [⟨2, "b", true⟩], 5 * Second⟩)]⟩ (by decide)
    (marshalList [⟨2, "b", true⟩]) (by decide)
  revert h1
  decide

end GoTasker
